import Mathlib

/-!
Shallow embedding of the catalog-building core of `hf_eolus_sar_ingestion`
(`scripts/build_sar_catalog.py` and `scripts/parquet_stac_utils.py`).

Python strings are modelled as `List Char`, Python `datetime` values as a
naive clock value (seconds) together with an optional UTC offset (seconds),
and Python floats (WKB point coordinates) as rationals extended with the
two infinities used as reduction seeds (the `FQ` type).
-/

namespace SarCatalog

/-- Model of a Python `datetime`: `clock` is the naive wall-clock value in
seconds (the value `isoformat` renders before any offset suffix), and `tz`
is `none` for a naive datetime or `some off` for an offset-aware datetime
with UTC offset `off` seconds (so the instant it denotes is `clock - off`). -/
structure DT where
  clock : Int
  tz : Option Int
deriving DecidableEq, Repr

/-- The instant a datetime denotes, in seconds: aware datetimes compare by
`clock - offset`; a naive datetime has no offset and compares by `clock`.
This is the comparison key Python's `datetime.__lt__` uses on the
homogeneous (all-naive or all-aware) columns a Parquet reader produces. -/
def DT.key (d : DT) : Int := d.clock - (d.tz.getD 0)

/-- Normalization used throughout the source: `replace(tzinfo=utc)` for a
naive datetime (tag as UTC, clock unchanged), `astimezone(utc)` for an
aware one (convert the instant to UTC). -/
def DT.toUTC (d : DT) : DT :=
  match d.tz with
  | none => { clock := d.clock, tz := some 0 }
  | some off => { clock := d.clock - off, tz := some 0 }

/-- Python's builtin `min` over a list of datetimes: fold keeping the
current element unless a strictly smaller one appears. Returns `none` on
an empty list (where Python raises `ValueError`). -/
def pyminList (l : List DT) : Option DT :=
  match l with
  | [] => none
  | h :: t => some (t.foldl (fun acc x => if x.key < acc.key then x else acc) h)

/-- Python's builtin `max` over a list of datetimes (dual of `pyminList`). -/
def pymaxList (l : List DT) : Option DT :=
  match l with
  | [] => none
  | h :: t => some (t.foldl (fun acc x => if acc.key < x.key then x else acc) h)

/-- Render a natural number below 100 as two decimal digits. -/
def twoDigits (n : Nat) : List Char :=
  [Char.ofNat (48 + n / 10 % 10), Char.ofNat (48 + n % 10)]

/-- Offset suffix of Python's `datetime.isoformat`: `±HH:MM` (seconds
component omitted for whole-minute offsets; only the zero offset matters
for the theorems below). -/
def offsetChars (off : Int) : List Char :=
  let sign : Char := if 0 ≤ off then '+' else '-'
  let a := off.natAbs
  sign :: (twoDigits (a / 3600) ++ [':'] ++ twoDigits (a % 3600 / 60))

/-- Naive part of `datetime.isoformat` (the `YYYY-MM-DDTHH:MM:SS` body).
The calendar rendering of the external `datetime` library is abstracted as
a decimal rendering of the naive clock; the suffix-handling theorems below
hold for any body rendering. -/
def isoClock (c : Int) : List Char := (toString c).toList

/-- Python's `datetime.isoformat`: naive body, followed by the offset
suffix when the datetime is offset-aware. -/
def DT.isoformat (d : DT) : List Char :=
  isoClock d.clock ++ (match d.tz with
    | none => []
    | some off => offsetChars off)

/-- Python's `str.endswith` on our `List Char` strings. -/
def listEndsWith (s suf : List Char) : Bool :=
  decide (suf.length ≤ s.length) && decide (s.drop (s.length - suf.length) = suf)

/-- The `"+00:00"` suffix Python renders for a zero UTC offset. -/
def plus0000 : List Char := ['+', '0', '0', ':', '0', '0']

/-- The literal `Z` suffix required by the STAC RFC3339 pattern. -/
def zSuffix : List Char := ['Z']

/-- Embedding of `_to_rfc3339_z` from `build_sar_catalog.py`: normalize to
UTC, `isoformat`, then force a trailing `Z` instead of `+00:00`. -/
def to_rfc3339_z (dt : DT) : List Char :=
  let d := dt.toUTC
  let s := d.isoformat
  if listEndsWith s plus0000 then s.take (s.length - 6) ++ zSuffix
  else if listEndsWith s zSuffix then s
  else s ++ zSuffix

/-! ### Extended rationals: Python floats with the two infinity seeds -/

/-- Python floats as used by `_bbox_and_times`: rational coordinates plus
`float("inf")` (`pinf`) and `float("-inf")` (`ninf`), the two reduction
seeds, ordered as IEEE floats order these values. -/
inductive FQ where
  | ninf
  | fin (q : ℚ)
  | pinf
deriving DecidableEq, Repr

/-- Rational `min` written with an explicit comparison so that it
evaluates by kernel reduction. -/
def qmin (a b : ℚ) : ℚ := if a ≤ b then a else b

/-- Rational `max` written with an explicit comparison. -/
def qmax (a b : ℚ) : ℚ := if a ≤ b then b else a

/-- Python's `min` on possibly-infinite floats. -/
def FQ.min : FQ → FQ → FQ
  | .ninf, _ => .ninf
  | _, .ninf => .ninf
  | .pinf, b => b
  | a, .pinf => a
  | .fin a, .fin b => .fin (qmin a b)

/-- Python's `max` on possibly-infinite floats. -/
def FQ.max : FQ → FQ → FQ
  | .pinf, _ => .pinf
  | _, .pinf => .pinf
  | .ninf, b => b
  | a, .ninf => a
  | .fin a, .fin b => .fin (qmax a b)

/-- A decoded WKB point geometry (WGS84 lon/lat); WKB decoding by the
external `shapely` library is modelled as the decoded coordinates. -/
structure Point where
  x : ℚ
  y : ℚ
deriving DecidableEq, Repr

/-- Shapely's `geom.bounds` for a point: `(x, y, x, y)`. -/
def Point.bounds (p : Point) : ℚ × ℚ × ℚ × ℚ := (p.x, p.y, p.x, p.y)

/-- One iteration of the bbox reduction loop of `_bbox_and_times`:
`minx = min(minx, b[0])`, `miny = min(miny, b[1])`,
`maxx = max(maxx, b[2])`, `maxy = max(maxy, b[3])`. -/
def bboxStep (acc : FQ × FQ × FQ × FQ) (g : Point) : FQ × FQ × FQ × FQ :=
  (FQ.min acc.1 (FQ.fin g.bounds.1),
   FQ.min acc.2.1 (FQ.fin g.bounds.2.1),
   FQ.max acc.2.2.1 (FQ.fin g.bounds.2.2.1),
   FQ.max acc.2.2.2 (FQ.fin g.bounds.2.2.2))

/-- The whole bbox reduction of `_bbox_and_times`, seeded at
`(+inf, +inf, -inf, -inf)`. -/
def bboxLoop (gs : List Point) : FQ × FQ × FQ × FQ :=
  gs.foldl bboxStep (FQ.pinf, FQ.pinf, FQ.ninf, FQ.ninf)

/-! ### Parquet files and the file summarizer -/

/-- The columns `_bbox_and_times` reads from one GeoParquet file, plus the
row count its Parquet metadata reports. The geometry column is the list of
decoded points; the two timestamp columns are datetime lists. -/
structure ParquetFile where
  geometry : List Point
  firstMeasurementTime : List DT
  lastMeasurementTime : List DT
  numRows : Nat
deriving DecidableEq, Repr

/-- Well-formedness of a Parquet file as the external reader guarantees
it: all columns of one table have the same length, which is the row count
the file metadata reports. -/
def ParquetFile.WF (f : ParquetFile) : Prop :=
  f.firstMeasurementTime.length = f.geometry.length ∧
  f.lastMeasurementTime.length = f.geometry.length ∧
  f.numRows = f.geometry.length

instance (f : ParquetFile) : Decidable f.WF := by
  unfold ParquetFile.WF
  infer_instance

/-- Errors of the catalog builder:
`emptyFile p` is the `ValueError(f"No geometry column in {p}")` raised by
`_bbox_and_times`; `emptyColumn` is the `ValueError` Python's `min`/`max`
raise on an empty sequence (unreachable for well-formed files);
`noParquetFiles` is the `RuntimeError("No Parquet files found under assets
directory")` raised by `build_catalog`. -/
inductive CatalogError where
  | emptyFile (path : List Char)
  | emptyColumn
  | noParquetFiles
deriving DecidableEq, Repr

/-- Decidable equality for `Except` results, used to evaluate the
embedding on concrete inputs. -/
instance {ε α : Type} [DecidableEq ε] [DecidableEq α] : DecidableEq (Except ε α) := fun a b =>
  match a, b with
  | .ok x, .ok y =>
      if h : x = y then isTrue (by rw [h])
      else isFalse (by intro he; cases he; exact h rfl)
  | .error x, .error y =>
      if h : x = y then isTrue (by rw [h])
      else isFalse (by intro he; cases he; exact h rfl)
  | .ok _, .error _ => isFalse (by intro he; cases he)
  | .error _, .ok _ => isFalse (by intro he; cases he)

/-- The four spatial bounds `(minx, miny, maxx, maxy)` of a file or of the
collection, as the possibly-infinite floats the source manipulates. -/
structure BBoxQ where
  minx : FQ
  miny : FQ
  maxx : FQ
  maxy : FQ
deriving DecidableEq, Repr

/-- Embedding of `_bbox_and_times`: spatial bounds, temporal range
(normalized to UTC) and row count for one Parquet file. `path` is the
file's path relative to the assets directory. -/
def bbox_and_times (path : List Char) (f : ParquetFile) :
    Except CatalogError (BBoxQ × DT × DT × Nat) :=
  if f.geometry.isEmpty then .error (.emptyFile path)
  else
    let b := bboxLoop f.geometry
    match pyminList f.firstMeasurementTime, pymaxList f.lastMeasurementTime with
    | some s, some e => .ok (⟨b.1, b.2.1, b.2.2.1, b.2.2.2⟩, s.toUTC, e.toUTC, f.numRows)
    | _, _ => .error .emptyColumn

/-! ### Paths: `Path.stem`, lexicographic sorting of the `rglob` result -/

/-- Final component of a path (`Path.name`): the characters after the last
`/`. -/
def lastComponent (p : List Char) : List Char :=
  ((p.reverse.takeWhile (fun c => c ≠ '/')).reverse)

/-- `Path.stem`: the final component without its suffix. The suffix starts
at the last dot, provided that dot is neither the first nor the last
character of the name. -/
def stem (p : List Char) : List Char :=
  let name := lastComponent p
  match name.reverse.findIdx? (fun c => c == '.') with
  | none => name
  | some j =>
      let i := name.length - 1 - j
      if 0 < i ∧ i < name.length - 1 then name.take i else name

/-- Lexicographic order on path strings, the order `sorted` uses on POSIX
`Path` objects. -/
def pathLe : List Char → List Char → Bool
  | [], _ => true
  | _ :: _, [] => false
  | a :: as, b :: bs => if a < b then true else if a = b then pathLe as bs else false

/-- Insert a file into a path-sorted list of files (stable). -/
def insertByPath (x : List Char × ParquetFile) :
    List (List Char × ParquetFile) → List (List Char × ParquetFile)
  | [] => [x]
  | y :: ys => if pathLe x.1 y.1 then x :: y :: ys else y :: insertByPath x ys

/-- `sorted(assets_dir.rglob("*.parquet"))`: the enumerated files sorted
by path (stable insertion sort). -/
def sortByPath (l : List (List Char × ParquetFile)) : List (List Char × ParquetFile) :=
  l.foldr insertByPath []

/-! ### STAC items, the collection, and the builder's running state -/

/-- Model of one `pystac.Item` as `build_catalog` constructs it, together
with its table-extension row count and data-asset href. `datetime` is the
file summary's (normalized) start; `endDatetime` carries the summary's end
value, which the builder accumulates into `end_times` and serializes into
the `end_datetime` property. -/
structure Item where
  id : List Char
  bbox : BBoxQ
  datetime : DT
  endDatetime : DT
  start_datetime : List Char
  end_datetime : List Char
  row_count : Nat
  href : List Char
deriving DecidableEq, Repr

/-- Build the item for one file from its summary, as in the loop body of
`build_catalog` (`id=parquet_file.stem`, geometry/bbox from the summary
bbox, `datetime=start`, the two RFC3339 properties, the table-extension
row count, and the relative asset href `assets/<relative path>`). The
user-supplied `item_props` overlay and the fixed column definitions are
not modelled: no claim concerns them. -/
def mkItem (path : List Char) (bb : BBoxQ) (s e : DT) (n : Nat) : Item :=
  { id := stem path
    bbox := bb
    datetime := s
    endDatetime := e
    start_datetime := to_rfc3339_z s
    end_datetime := to_rfc3339_z e
    row_count := n
    href := ("assets/".toList) ++ path }

/-- Pairwise merge of the running collection bbox with one item bbox, as
in `build_catalog`'s accumulation step. -/
def mergeBBox (ob bb : BBoxQ) : BBoxQ :=
  ⟨FQ.min ob.minx bb.minx, FQ.min ob.miny bb.miny,
   FQ.max ob.maxx bb.maxx, FQ.max ob.maxy bb.maxy⟩

/-- The builder's running state: built items, running bbox (`None` before
the first file), the `start_times`/`end_times` lists, and the running row
total. -/
structure BuildState where
  items : List Item
  overallBbox : Option BBoxQ
  startTimes : List DT
  endTimes : List DT
  totalRows : Nat
deriving DecidableEq, Repr

/-- Initial builder state. -/
def initState : BuildState :=
  { items := [], overallBbox := none, startTimes := [], endTimes := [], totalRows := 0 }

/-- One successful loop iteration of `build_catalog`: append the item and
its times, add the row count, merge the bbox. -/
def stepState (st : BuildState) (path : List Char) (bb : BBoxQ) (s e : DT) (n : Nat) :
    BuildState :=
  { items := st.items ++ [mkItem path bb s e n]
    overallBbox := some (match st.overallBbox with
      | none => bb
      | some ob => mergeBBox ob bb)
    startTimes := st.startTimes ++ [s]
    endTimes := st.endTimes ++ [e]
    totalRows := st.totalRows + n }

/-- The enumeration loop of `build_catalog` over the path-sorted files: a
summarization failure propagates immediately (aborting the run). -/
def processFiles : List (List Char × ParquetFile) → BuildState →
    Except CatalogError BuildState
  | [], st => .ok st
  | (p, f) :: rest, st =>
    match bbox_and_times p f with
    | .error e => .error e
    | .ok (bb, s, e, n) => processFiles rest (stepState st p bb s e n)

/-- Model of the built `pystac.Collection`: spatial extent, temporal
extent `[min(start_times), max(end_times)]`, the table-extension aggregate
`row_count`, and the linked items. -/
structure Collection where
  id : List Char
  spatial : BBoxQ
  temporalStart : Option DT
  temporalEnd : Option DT
  row_count : Nat
  items : List Item
deriving DecidableEq, Repr

/-- Embedding of `build_catalog` up to persistence: enumerate the files
sorted by path, summarize and accumulate, fail with `noParquetFiles` when
the running bbox is still `None` after the loop, otherwise assemble the
collection. Item/collection validation by the external `pystac` validator
is not modelled (it is schema validation of well-formed records). -/
def build_catalog (collection_id : List Char)
    (files : List (List Char × ParquetFile)) : Except CatalogError Collection :=
  match processFiles (sortByPath files) initState with
  | .error e => .error e
  | .ok st =>
    match st.overallBbox with
    | none => .error .noParquetFiles
    | some bb =>
        .ok { id := collection_id
              spatial := bb
              temporalStart := pyminList st.startTimes
              temporalEnd := pymaxList st.endTimes
              row_count := st.totalRows
              items := st.items }

/-- Relative paths of the documents `collection.save` writes: the
collection at `collection.json` and each item at `items/<id>.json` (the
`TemplateLayoutStrategy` of the source). -/
def savedDocuments (c : Collection) : List (List Char) :=
  ("collection.json".toList) ::
    c.items.map (fun it => ("items/".toList) ++ it.id ++ (".json".toList))

/-- The build followed by persistence: on any builder error nothing is
written (the error propagates before `collection.save` runs). -/
def build_and_save (collection_id : List Char)
    (files : List (List Char × ParquetFile)) :
    Except CatalogError (Collection × List (List Char)) :=
  (build_catalog collection_id files).map (fun c => (c, savedDocuments c))

/-! ### The resilient dataset writer (`write_dataset_with_retry`) -/

/-- A Python exception as the retry loop distinguishes them: an `OSError`
with its message, or any other exception (not caught by the handler). -/
inductive PyErr where
  | osError (msg : List Char)
  | otherError (msg : List Char)
deriving DecidableEq, Repr

/-- Outcome of one call to `pyarrow.parquet.write_to_dataset`. -/
inductive WriteOutcome where
  | success
  | failure (e : PyErr)
deriving DecidableEq, Repr

/-- The throttling marker searched for in the error message. -/
def SLOW_DOWN_MARKER : List Char := "SLOW_DOWN".toList

/-- Observable behavior of one run of `write_dataset_with_retry`: the
sleep durations in order, the number of write attempts made, and the
final result. -/
structure RunResult where
  sleeps : List Nat
  attempts : Nat
  result : Except PyErr Unit
deriving DecidableEq

/-- The retry loop body: `fuel` is the number of loop iterations left
(`retries - attempt + 1` at entry), `attempt` the 1-based attempt counter.
An `OSError` whose message contains the marker while `attempt < retries`
sleeps `backoff * 2^(attempt-1)` and retries; any other failure re-raises
immediately; exhausting the loop (possible only when `retries = 0`)
returns `None` like the Python function. -/
def retryGo (behavior : Nat → WriteOutcome) (retries backoff : Nat) :
    Nat → Nat → RunResult
  | 0, _ => ⟨[], 0, .ok ()⟩
  | fuel + 1, attempt =>
    match behavior attempt with
    | .success => ⟨[], 1, .ok ()⟩
    | .failure (.osError msg) =>
        if SLOW_DOWN_MARKER <:+: msg ∧ attempt < retries then
          let wait := backoff * 2 ^ (attempt - 1)
          let r := retryGo behavior retries backoff fuel (attempt + 1)
          ⟨wait :: r.sleeps, r.attempts + 1, r.result⟩
        else ⟨[], 1, .error (.osError msg)⟩
    | .failure (.otherError msg) => ⟨[], 1, .error (.otherError msg)⟩

/-- Embedding of `write_dataset_with_retry`: run the attempt loop from
attempt 1 with `retries` iterations available. `behavior n` is the outcome
of the `n`-th `write_to_dataset` call (the dataset, destination and
filesystem arguments are absorbed into `behavior`). -/
def write_dataset_with_retry (behavior : Nat → WriteOutcome)
    (retries : Nat := 5) (backoff : Nat := 5) : RunResult :=
  retryGo behavior retries backoff retries 1

/-- Holds when a write outcome is the one the loop retries: an `OSError`
whose message contains the throttling marker. -/
def throttled (w : WriteOutcome) : Prop :=
  ∃ msg, w = .failure (.osError msg) ∧ SLOW_DOWN_MARKER <:+: msg

/-! ### Concrete example data (the end-to-end example of the spec) -/

/-- `2021-01-01T00:00:00Z` as epoch seconds. -/
def epoch20210101T00 : Int := 1609459200

/-- `2021-01-01T01:00:00Z` as epoch seconds. -/
def epoch20210101T01 : Int := 1609462800

/-- `2021-01-02T00:00:00Z` as epoch seconds. -/
def epoch20210102T00 : Int := 1609545600

/-- `2021-01-02T01:00:00Z` as epoch seconds. -/
def epoch20210102T01 : Int := 1609549200

/-- `assets/a.parquet`: bbox `[-10,40,-9,41]`, times
`2021-01-01T00:00Z..01:00Z`, 3 rows. -/
def fileA : ParquetFile :=
  { geometry := [⟨-10, 40⟩, ⟨-9, 41⟩, ⟨-10, 41⟩]
    firstMeasurementTime :=
      [⟨epoch20210101T00, some 0⟩, ⟨epoch20210101T00 + 60, some 0⟩,
       ⟨epoch20210101T00 + 30, some 0⟩]
    lastMeasurementTime :=
      [⟨epoch20210101T01, some 0⟩, ⟨epoch20210101T01 - 100, some 0⟩,
       ⟨epoch20210101T01 - 50, some 0⟩]
    numRows := 3 }

/-- `assets/b.parquet`: bbox `[-9,41,-8,42]`, times
`2021-01-02T00:00Z..01:00Z`, 5 rows. -/
def fileB : ParquetFile :=
  { geometry := [⟨-9, 41⟩, ⟨-8, 42⟩, ⟨-9, 42⟩, ⟨-8, 41⟩, ⟨-9, 41⟩]
    firstMeasurementTime :=
      [⟨epoch20210102T00, some 0⟩, ⟨epoch20210102T00 + 10, some 0⟩,
       ⟨epoch20210102T00 + 20, some 0⟩, ⟨epoch20210102T00 + 30, some 0⟩,
       ⟨epoch20210102T00 + 40, some 0⟩]
    lastMeasurementTime :=
      [⟨epoch20210102T01, some 0⟩, ⟨epoch20210102T01 - 10, some 0⟩,
       ⟨epoch20210102T01 - 20, some 0⟩, ⟨epoch20210102T01 - 30, some 0⟩,
       ⟨epoch20210102T01 - 40, some 0⟩]
    numRows := 5 }

/-- The two enumerated files of the end-to-end example. -/
def exampleFiles : List (List Char × ParquetFile) :=
  [("a.parquet".toList, fileA), ("b.parquet".toList, fileB)]

/-! ### Claim statements: conclusions and instantiation data -/

/-- Conclusion of claim C2 for a file `f` with path `p`: the summarizer
succeeds, and each bbox component is the finite coordinate-wise min/max
over the decoded point coordinates; the reduction is row-order
independent; and a singleton geometry yields the degenerate bbox. -/
def C2Conclusion (p : List Char) (f : ParquetFile) : Prop :=
  (∃ bb s e, bbox_and_times p f = .ok (bb, s, e, f.numRows) ∧
    (∃ mx ∈ f.geometry.map Point.x,
      bb.minx = FQ.fin mx ∧ ∀ q ∈ f.geometry.map Point.x, mx ≤ q) ∧
    (∃ my ∈ f.geometry.map Point.y,
      bb.miny = FQ.fin my ∧ ∀ q ∈ f.geometry.map Point.y, my ≤ q) ∧
    (∃ mX ∈ f.geometry.map Point.x,
      bb.maxx = FQ.fin mX ∧ ∀ q ∈ f.geometry.map Point.x, q ≤ mX) ∧
    (∃ mY ∈ f.geometry.map Point.y,
      bb.maxy = FQ.fin mY ∧ ∀ q ∈ f.geometry.map Point.y, q ≤ mY)) ∧
  (∀ gs : List Point, f.geometry.Perm gs → bboxLoop f.geometry = bboxLoop gs) ∧
  (∀ pt : Point, bboxLoop [pt] = (FQ.fin pt.x, FQ.fin pt.y, FQ.fin pt.x, FQ.fin pt.y))

/-- A two-row file used to instantiate the C2 and C7 theorems. -/
def witnessFile : ParquetFile :=
  { geometry := [⟨3, 7⟩, ⟨1, 9⟩]
    firstMeasurementTime := [⟨100, none⟩, ⟨50, none⟩]
    lastMeasurementTime := [⟨200, some 3600⟩, ⟨300, some 3600⟩]
    numRows := 2 }

/-- Conclusion of claim C7 for a file `f` with path `p`: the summarizer
returns `start` = (normalization of) the key-minimal value of the
first-timestamp column and `end` = the key-maximal value of the
last-timestamp column, both normalized to UTC; a naive datetime is tagged
as UTC with its clock unchanged, an aware one is converted to UTC (same
instant, offset zero). -/
def C7Conclusion (p : List Char) (f : ParquetFile) : Prop :=
  (∃ bb s0 e0, bbox_and_times p f = .ok (bb, s0.toUTC, e0.toUTC, f.numRows) ∧
    s0 ∈ f.firstMeasurementTime ∧ (∀ x ∈ f.firstMeasurementTime, s0.key ≤ x.key) ∧
    e0 ∈ f.lastMeasurementTime ∧ (∀ x ∈ f.lastMeasurementTime, x.key ≤ e0.key) ∧
    s0.toUTC.tz = some 0 ∧ e0.toUTC.tz = some 0) ∧
  (∀ d : DT, d.tz = none → d.toUTC = ⟨d.clock, some 0⟩) ∧
  (∀ d : DT, ∀ off : Int, d.tz = some off →
    d.toUTC = ⟨d.clock - off, some 0⟩ ∧ d.toUTC.key = d.key)

/-- The item one file pair contributes, when its summary succeeds. -/
def itemOfPair (x : List Char × ParquetFile) : Option Item :=
  match bbox_and_times x.1 x.2 with
  | .ok (bb, s, e, n) => some (mkItem x.1 bb s e n)
  | .error _ => none

/-- Left fold of the running-bbox accumulation over a list of item
bboxes. -/
def aggBbox (l : List BBoxQ) : Option BBoxQ :=
  l.foldl (fun acc b => some (match acc with
    | none => b
    | some o => mergeBBox o b)) none

/-- Relation between the builder state's accumulator fields and its item
list, maintained by every loop iteration. -/
def StateInv (st : BuildState) : Prop :=
  st.startTimes = st.items.map Item.datetime ∧
  st.endTimes = st.items.map Item.endDatetime ∧
  st.totalRows = (st.items.map Item.row_count).sum ∧
  st.overallBbox = aggBbox (st.items.map Item.bbox)

/-- A well-formed file with zero rows, used to instantiate C4. -/
def emptyRowsFile : ParquetFile :=
  { geometry := [], firstMeasurementTime := [], lastMeasurementTime := [], numRows := 0 }

/-- A fallback item for total extraction of concrete build results. -/
def defaultItem : Item :=
  ⟨[], ⟨FQ.ninf, FQ.ninf, FQ.ninf, FQ.ninf⟩, ⟨0, none⟩, ⟨0, none⟩, [], [], 0, []⟩

/-- A fallback collection for total extraction of concrete build
results. -/
def defaultCollection : Collection :=
  ⟨[], ⟨FQ.ninf, FQ.ninf, FQ.ninf, FQ.ninf⟩, none, none, 0, []⟩

/-- The collection the builder produces on the end-to-end example data. -/
def exampleCollection : Collection :=
  match build_catalog ("sar".toList) exampleFiles with
  | .ok c => c
  | .error _ => defaultCollection

/-- Conclusion of claim C1 for a built collection `c`: the spatial extent
is the coordinate-wise min/max fold over all item bboxes, the temporal
extent is the minimum item start and maximum item end, and the
table-extension row count is the sum of the item row counts. -/
def C1Conclusion (c : Collection) : Prop :=
  c.row_count = (c.items.map Item.row_count).sum ∧
  (∀ i0 rest, c.items = i0 :: rest →
    c.spatial =
      ⟨((rest.map Item.bbox).map BBoxQ.minx).foldl FQ.min i0.bbox.minx,
       ((rest.map Item.bbox).map BBoxQ.miny).foldl FQ.min i0.bbox.miny,
       ((rest.map Item.bbox).map BBoxQ.maxx).foldl FQ.max i0.bbox.maxx,
       ((rest.map Item.bbox).map BBoxQ.maxy).foldl FQ.max i0.bbox.maxy⟩) ∧
  (∃ s, c.temporalStart = some s ∧ (∃ it ∈ c.items, s = it.datetime) ∧
    ∀ it ∈ c.items, s.key ≤ it.datetime.key) ∧
  (∃ e, c.temporalEnd = some e ∧ (∃ it ∈ c.items, e = it.endDatetime) ∧
    ∀ it ∈ c.items, it.endDatetime.key ≤ e.key) ∧
  c.items ≠ []

/-- The end-to-end example of the spec, as a closed fact about the
builder: bbox `[-10,40,-8,42]`, temporal
`[2021-01-01T00:00Z, 2021-01-02T01:00Z]`, row count 8, two items. -/
def C1ExampleFact : Prop :=
  (build_catalog ("sar".toList) exampleFiles).map
      (fun c => (c.spatial, c.temporalStart, c.temporalEnd, c.row_count, c.items.length)) =
    .ok (⟨FQ.fin (-10), FQ.fin 40, FQ.fin (-8), FQ.fin 42⟩,
      some ⟨epoch20210101T00, some 0⟩, some ⟨epoch20210102T01, some 0⟩, 8, 2)

/-- Two distinct files, in different subdirectories of the assets tree,
sharing the file name `same.parquet`. -/
def sameStemFiles : List (List Char × ParquetFile) :=
  [("dir1/same.parquet".toList, witnessFile), ("dir2/same.parquet".toList, witnessFile)]

/-- The collection built from the example files enumerated in reverse
order. -/
def exampleCollectionRev : Collection :=
  match build_catalog ("sar".toList) exampleFiles.reverse with
  | .ok c => c
  | .error _ => defaultCollection

/-- Conclusion of claim C3: (1) the writer makes at most `retries`
attempts; (2) two marker-bearing `OSError` failures followed by a success
sleep `backoff*1` then `backoff*2` seconds (total `backoff*3`) and return
normally; (3) a non-throttling `OSError` re-raises immediately with no
sleep; (4) exhausting the attempt budget re-raises the last error
unchanged. -/
def C3Conclusion : Prop :=
  (∀ (behavior : Nat → WriteOutcome) (retries backoff : Nat),
    (write_dataset_with_retry behavior retries backoff).attempts ≤ retries) ∧
  (∀ (behavior : Nat → WriteOutcome) (backoff : Nat) (m1 m2 : List Char),
    SLOW_DOWN_MARKER <:+: m1 → SLOW_DOWN_MARKER <:+: m2 →
    behavior 1 = .failure (.osError m1) → behavior 2 = .failure (.osError m2) →
    behavior 3 = .success →
      write_dataset_with_retry behavior 5 backoff =
        ⟨[backoff * 1, backoff * 2], 3, .ok ()⟩ ∧
      (write_dataset_with_retry behavior 5 backoff).sleeps.sum =
        backoff * 1 + backoff * 2) ∧
  (∀ (behavior : Nat → WriteOutcome) (retries backoff : Nat) (msg : List Char),
    1 ≤ retries → ¬(SLOW_DOWN_MARKER <:+: msg) →
    behavior 1 = .failure (.osError msg) →
      write_dataset_with_retry behavior retries backoff =
        ⟨[], 1, .error (.osError msg)⟩) ∧
  (∀ (behavior : Nat → WriteOutcome) (retries backoff : Nat) (m : Nat → List Char),
    1 ≤ retries →
    (∀ k, 1 ≤ k → k ≤ retries →
      behavior k = .failure (.osError (m k)) ∧ SLOW_DOWN_MARKER <:+: m k) →
      (write_dataset_with_retry behavior retries backoff).result =
        .error (.osError (m retries)) ∧
      (write_dataset_with_retry behavior retries backoff).attempts = retries)

/-- Behavior that throttles on the first two attempts and succeeds on the
third. -/
def twoThrottleBehavior : Nat → WriteOutcome := fun n =>
  if n ≤ 2 then .failure (.osError SLOW_DOWN_MARKER) else .success

/-- Behavior whose first attempt fails with a non-throttling `OSError`. -/
def plainFailBehavior : Nat → WriteOutcome := fun _ => .failure (.osError ['x'])

/-- Behavior that throttles on every attempt. -/
def alwaysThrottleBehavior : Nat → WriteOutcome :=
  fun _ => .failure (.osError SLOW_DOWN_MARKER)

/-- Behavior failing with a non-`OSError` exception whose message contains
the throttling marker. -/
def otherFailBehavior : Nat → WriteOutcome :=
  fun _ => .failure (.otherError SLOW_DOWN_MARKER)

example : to_rfc3339_z ⟨0, none⟩ = ['0', 'Z'] := by decide

example : to_rfc3339_z ⟨5, some 3600⟩ = isoClock (5 - 3600) ++ ['Z'] := by decide

example : bboxLoop [⟨1, 2⟩, ⟨-3, 5⟩] = (FQ.fin (-3), FQ.fin 2, FQ.fin 1, FQ.fin 5) := by
  decide

example :
    bbox_and_times ['a'] ⟨[⟨1, 2⟩], [⟨7, none⟩], [⟨9, some 3600⟩], 1⟩ =
      .ok (⟨FQ.fin 1, FQ.fin 2, FQ.fin 1, FQ.fin 2⟩, ⟨7, some 0⟩, ⟨9 - 3600, some 0⟩, 1) := by
  decide

example : stem ("dir1/same.parquet".toList) = "same".toList := by decide

example : stem ("a.parquet".toList) = ['a'] := by decide

example :
    (build_catalog ("sar".toList) exampleFiles).map
      (fun c => (c.spatial, c.temporalStart, c.temporalEnd, c.row_count, c.items.length)) =
    .ok (⟨FQ.fin (-10), FQ.fin 40, FQ.fin (-8), FQ.fin 42⟩,
      some ⟨epoch20210101T00, some 0⟩, some ⟨epoch20210102T01, some 0⟩, 8, 2) := by
  decide

/-! ### Lemmas: the extended-float operations -/

theorem qmin_eq_min (a b : ℚ) : qmin a b = Min.min a b := by
  rw [qmin, min_def]

theorem qmax_eq_max (a b : ℚ) : qmax a b = Max.max a b := by
  rw [qmax, max_def]

theorem FQ.min_comm (a b : FQ) : FQ.min a b = FQ.min b a := by
  cases a <;> cases b <;> simp [FQ.min, qmin_eq_min, min_comm, inf_comm]

theorem FQ.min_assoc (a b c : FQ) : FQ.min (FQ.min a b) c = FQ.min a (FQ.min b c) := by
  cases a <;> cases b <;> cases c <;> simp [FQ.min, qmin_eq_min, min_assoc, inf_assoc]

theorem FQ.max_comm (a b : FQ) : FQ.max a b = FQ.max b a := by
  cases a <;> cases b <;> simp [FQ.max, qmax_eq_max, max_comm, sup_comm]

theorem FQ.max_assoc (a b c : FQ) : FQ.max (FQ.max a b) c = FQ.max a (FQ.max b c) := by
  cases a <;> cases b <;> cases c <;> simp [FQ.max, qmax_eq_max, max_assoc, sup_assoc]

theorem FQ.min_pinf (b : FQ) : FQ.min FQ.pinf b = b := by
  cases b <;> rfl

theorem FQ.max_ninf (b : FQ) : FQ.max FQ.ninf b = b := by
  cases b <;> rfl

theorem FQ.min_fin (a b : ℚ) : FQ.min (FQ.fin a) (FQ.fin b) = FQ.fin (Min.min a b) := by
  simp [FQ.min, qmin_eq_min]

theorem FQ.max_fin (a b : ℚ) : FQ.max (FQ.fin a) (FQ.fin b) = FQ.fin (Max.max a b) := by
  simp [FQ.max, qmax_eq_max]

/-! ### Lemmas: folded minima and maxima over rational lists -/

theorem foldl_min_mem (l : List ℚ) (c : ℚ) : l.foldl Min.min c ∈ c :: l := by
  induction l generalizing c with
  | nil => simp
  | cons h t ih =>
      have := ih (Min.min c h)
      rcases List.mem_cons.mp this with h1 | h1
      · rcases min_choice c h with h2 | h2 <;> rw [List.foldl_cons, h1, h2] <;> simp
      · simp [List.foldl_cons, h1]

theorem foldl_min_le (l : List ℚ) (c : ℚ) :
    l.foldl Min.min c ≤ c ∧ ∀ x ∈ l, l.foldl Min.min c ≤ x := by
  induction l generalizing c with
  | nil => simp
  | cons h t ih =>
      have := ih (Min.min c h)
      refine ⟨le_trans this.1 (min_le_left _ _), ?_⟩
      intro x hx
      rcases List.mem_cons.mp hx with rfl | hx
      · exact le_trans this.1 (min_le_right _ _)
      · exact this.2 x hx

theorem foldl_max_mem (l : List ℚ) (c : ℚ) : l.foldl Max.max c ∈ c :: l := by
  induction l generalizing c with
  | nil => simp
  | cons h t ih =>
      have := ih (Max.max c h)
      rcases List.mem_cons.mp this with h1 | h1
      · rcases max_choice c h with h2 | h2 <;> rw [List.foldl_cons, h1, h2] <;> simp
      · simp [List.foldl_cons, h1]

theorem foldl_max_le (l : List ℚ) (c : ℚ) :
    c ≤ l.foldl Max.max c ∧ ∀ x ∈ l, x ≤ l.foldl Max.max c := by
  induction l generalizing c with
  | nil => simp
  | cons h t ih =>
      have := ih (Max.max c h)
      refine ⟨le_trans (le_max_left _ _) this.1, ?_⟩
      intro x hx
      rcases List.mem_cons.mp hx with rfl | hx
      · exact le_trans (le_max_right _ _) this.1
      · exact this.2 x hx

/-! ### Lemmas: the bbox reduction loop -/

theorem foldl_bboxStep_eq (gs : List Point) (acc : FQ × FQ × FQ × FQ) :
    List.foldl bboxStep acc gs =
      (List.foldl (fun a q => FQ.min a (FQ.fin q)) acc.1 (gs.map Point.x),
       List.foldl (fun a q => FQ.min a (FQ.fin q)) acc.2.1 (gs.map Point.y),
       List.foldl (fun a q => FQ.max a (FQ.fin q)) acc.2.2.1 (gs.map Point.x),
       List.foldl (fun a q => FQ.max a (FQ.fin q)) acc.2.2.2 (gs.map Point.y)) := by
  induction gs generalizing acc with
  | nil => rfl
  | cons g t ih =>
      obtain ⟨a1, a2, a3, a4⟩ := acc
      simp only [List.foldl_cons, List.map_cons, ih]
      rfl

theorem foldl_fqmin_fin (l : List ℚ) (c : ℚ) :
    List.foldl (fun a q => FQ.min a (FQ.fin q)) (FQ.fin c) l = FQ.fin (l.foldl Min.min c) := by
  induction l generalizing c with
  | nil => rfl
  | cons h t ih => simp [List.foldl_cons, FQ.min_fin, ih]

theorem foldl_fqmax_fin (l : List ℚ) (c : ℚ) :
    List.foldl (fun a q => FQ.max a (FQ.fin q)) (FQ.fin c) l = FQ.fin (l.foldl Max.max c) := by
  induction l generalizing c with
  | nil => rfl
  | cons h t ih => simp [List.foldl_cons, FQ.max_fin, ih]

/-- The bbox reduction on a non-empty geometry list: both lower bounds are
the finite minimum of the respective coordinates over all rows, both upper
bounds the finite maximum. -/
theorem bboxLoop_spec (g : Point) (t : List Point) :
    bboxLoop (g :: t) =
      (FQ.fin ((t.map Point.x).foldl Min.min g.x),
       FQ.fin ((t.map Point.y).foldl Min.min g.y),
       FQ.fin ((t.map Point.x).foldl Max.max g.x),
       FQ.fin ((t.map Point.y).foldl Max.max g.y)) := by
  rw [bboxLoop, List.foldl_cons]
  rw [foldl_bboxStep_eq]
  simp only [bboxStep, Point.bounds, FQ.min_pinf, FQ.max_ninf]
  rw [foldl_fqmin_fin, foldl_fqmin_fin, foldl_fqmax_fin, foldl_fqmax_fin]

/-! ### Lemmas: Python `min`/`max` over datetime lists -/

theorem foldl_pymin_mem (t : List DT) (h : DT) :
    t.foldl (fun acc x => if x.key < acc.key then x else acc) h ∈ h :: t := by
  induction t generalizing h with
  | nil => simp
  | cons a t ih =>
      have := ih (if a.key < h.key then a else h)
      rcases List.mem_cons.mp this with h1 | h1
      · rw [List.foldl_cons, h1]
        by_cases hc : a.key < h.key <;> simp [hc]
      · simp [List.foldl_cons, h1]

theorem foldl_pymin_le (t : List DT) (h : DT) :
    (t.foldl (fun acc x => if x.key < acc.key then x else acc) h).key ≤ h.key ∧
      ∀ x ∈ t, (t.foldl (fun acc x => if x.key < acc.key then x else acc) h).key ≤ x.key := by
  induction t generalizing h with
  | nil => simp
  | cons a t ih =>
      have := ih (if a.key < h.key then a else h)
      constructor
      · refine le_trans this.1 ?_
        by_cases hc : a.key < h.key <;> simp [hc]
        omega
      · intro x hx
        rcases List.mem_cons.mp hx with rfl | hx
        · refine le_trans this.1 ?_
          by_cases hc : x.key < h.key <;> simp [hc]
          omega
        · exact this.2 x hx

theorem pyminList_spec (l : List DT) (d : DT) (hd : pyminList l = some d) :
    d ∈ l ∧ ∀ x ∈ l, d.key ≤ x.key := by
  match l with
  | [] => simp [pyminList] at hd
  | h :: t =>
      simp only [pyminList, Option.some.injEq] at hd
      subst hd
      refine ⟨foldl_pymin_mem t h, ?_⟩
      intro x hx
      rcases List.mem_cons.mp hx with h1 | h1
      · rw [h1]
        exact (foldl_pymin_le t h).1
      · exact (foldl_pymin_le t h).2 x h1

theorem foldl_pymax_mem (t : List DT) (h : DT) :
    t.foldl (fun acc x => if acc.key < x.key then x else acc) h ∈ h :: t := by
  induction t generalizing h with
  | nil => simp
  | cons a t ih =>
      have := ih (if h.key < a.key then a else h)
      rcases List.mem_cons.mp this with h1 | h1
      · rw [List.foldl_cons, h1]
        by_cases hc : h.key < a.key <;> simp [hc]
      · simp [List.foldl_cons, h1]

theorem foldl_pymax_le (t : List DT) (h : DT) :
    h.key ≤ (t.foldl (fun acc x => if acc.key < x.key then x else acc) h).key ∧
      ∀ x ∈ t, x.key ≤ (t.foldl (fun acc x => if acc.key < x.key then x else acc) h).key := by
  induction t generalizing h with
  | nil => simp
  | cons a t ih =>
      have := ih (if h.key < a.key then a else h)
      constructor
      · refine le_trans ?_ this.1
        by_cases hc : h.key < a.key <;> simp [hc]
        omega
      · intro x hx
        rcases List.mem_cons.mp hx with rfl | hx
        · refine le_trans ?_ this.1
          by_cases hc : h.key < x.key <;> simp [hc]
          omega
        · exact this.2 x hx

theorem pymaxList_spec (l : List DT) (d : DT) (hd : pymaxList l = some d) :
    d ∈ l ∧ ∀ x ∈ l, x.key ≤ d.key := by
  match l with
  | [] => simp [pymaxList] at hd
  | h :: t =>
      simp only [pymaxList, Option.some.injEq] at hd
      subst hd
      refine ⟨foldl_pymax_mem t h, ?_⟩
      intro x hx
      rcases List.mem_cons.mp hx with h1 | h1
      · rw [h1]
        exact (foldl_pymax_le t h).1
      · exact (foldl_pymax_le t h).2 x h1

theorem pyminList_isSome (l : List DT) (h : l ≠ []) : ∃ d, pyminList l = some d := by
  match l with
  | [] => exact absurd rfl h
  | a :: t => exact ⟨_, rfl⟩

theorem pymaxList_isSome (l : List DT) (h : l ≠ []) : ∃ d, pymaxList l = some d := by
  match l with
  | [] => exact absurd rfl h
  | a :: t => exact ⟨_, rfl⟩

/-! ### Lemmas: UTC normalization -/

theorem DT.toUTC_tz (d : DT) : d.toUTC.tz = some 0 := by
  rcases d with ⟨c, (_ | o)⟩ <;> rfl

theorem DT.toUTC_naive (c : Int) : DT.toUTC ⟨c, none⟩ = ⟨c, some 0⟩ := rfl

theorem DT.toUTC_aware (c o : Int) : DT.toUTC ⟨c, some o⟩ = ⟨c - o, some 0⟩ := rfl

theorem DT.toUTC_key (d : DT) : d.toUTC.key = d.key := by
  rcases d with ⟨c, (_ | o)⟩ <;> simp [DT.toUTC, DT.key]

/-- Two normalized datetimes with the same key are equal. -/
theorem DT.eq_of_key_eq (a b : DT) (ha : a.tz = some 0) (hb : b.tz = some 0)
    (h : a.key = b.key) : a = b := by
  rcases a with ⟨ca, ta⟩
  rcases b with ⟨cb, tb⟩
  cases ha
  cases hb
  simp [DT.key] at h
  simp [h]

/-! ### Lemmas: unfolding the summarizer on a non-empty well-formed file -/

theorem bbox_and_times_ok (p : List Char) (f : ParquetFile) (hwf : f.WF)
    (hg : f.geometry ≠ []) :
    ∃ s e, pyminList f.firstMeasurementTime = some s ∧
      pymaxList f.lastMeasurementTime = some e ∧
      bbox_and_times p f =
        .ok (⟨(bboxLoop f.geometry).1, (bboxLoop f.geometry).2.1,
              (bboxLoop f.geometry).2.2.1, (bboxLoop f.geometry).2.2.2⟩,
          s.toUTC, e.toUTC, f.numRows) := by
  obtain ⟨w1, w2, w3⟩ := hwf
  have h1 : f.firstMeasurementTime ≠ [] := by
    intro h
    apply hg
    apply List.eq_nil_of_length_eq_zero
    rw [h] at w1
    simpa using w1.symm
  have h2 : f.lastMeasurementTime ≠ [] := by
    intro h
    apply hg
    apply List.eq_nil_of_length_eq_zero
    rw [h] at w2
    simpa using w2.symm
  obtain ⟨s, hs⟩ := pyminList_isSome _ h1
  obtain ⟨e, he⟩ := pymaxList_isSome _ h2
  refine ⟨s, e, hs, he, ?_⟩
  rw [bbox_and_times]
  simp only [List.isEmpty_iff, hg, if_neg, hs, he]
  rfl

/-! ### Permutation invariance of left folds by a right-commutative step -/

theorem foldl_perm_of_rightComm {α β : Type} (f : β → α → β)
    (hf : ∀ b x y, f (f b x) y = f (f b y) x) :
    ∀ {l₁ l₂ : List α}, l₁.Perm l₂ → ∀ b : β, l₁.foldl f b = l₂.foldl f b := by
  intro l₁ l₂ h
  induction h with
  | nil => intro b; rfl
  | cons x _ ih => intro b; simpa using ih (f b x)
  | swap x y l => intro b; simp [List.foldl_cons, hf b y x]
  | trans _ _ ih1 ih2 => intro b; exact (ih1 b).trans (ih2 b)

/-- The bbox reduction is invariant under reordering of the rows. -/
theorem bboxLoop_perm (gs₁ gs₂ : List Point) (h : gs₁.Perm gs₂) :
    bboxLoop gs₁ = bboxLoop gs₂ := by
  have hx := h.map Point.x
  have hy := h.map Point.y
  have hmin : ∀ (l₁ l₂ : List ℚ), l₁.Perm l₂ → ∀ a : FQ,
      l₁.foldl (fun a q => FQ.min a (FQ.fin q)) a =
        l₂.foldl (fun a q => FQ.min a (FQ.fin q)) a := by
    intro l₁ l₂ hp a
    refine foldl_perm_of_rightComm _ ?_ hp a
    intro b u v
    rw [FQ.min_assoc, FQ.min_assoc, FQ.min_comm (FQ.fin u)]
  have hmax : ∀ (l₁ l₂ : List ℚ), l₁.Perm l₂ → ∀ a : FQ,
      l₁.foldl (fun a q => FQ.max a (FQ.fin q)) a =
        l₂.foldl (fun a q => FQ.max a (FQ.fin q)) a := by
    intro l₁ l₂ hp a
    refine foldl_perm_of_rightComm _ ?_ hp a
    intro b u v
    rw [FQ.max_assoc, FQ.max_assoc, FQ.max_comm (FQ.fin u)]
  rw [bboxLoop, bboxLoop, foldl_bboxStep_eq, foldl_bboxStep_eq]
  rw [hmin _ _ hx, hmin _ _ hy, hmax _ _ hx, hmax _ _ hy]

/-! ### Claim C2 -/

/-- C2: for every well-formed file whose geometry column is non-empty, the
summarizer's bounding box is the exact coordinate-wise min/max over the
bounds of the decoded point geometries, independent of row order (the
reduction is a pairwise min/max fold seeded at `±inf`), and a single-row
file yields a degenerate bbox rather than an error. -/
theorem C2_bbox_exact_coordinatewise (p : List Char) (f : ParquetFile)
    (hwf : f.WF) (hg : f.geometry ≠ []) : C2Conclusion p f := by
  obtain ⟨geo, ftimes, ltimes, n⟩ := f
  obtain ⟨s, e, hs, he, hok⟩ := bbox_and_times_ok p _ hwf hg
  simp only at hg
  obtain ⟨g, t, rfl⟩ := List.exists_cons_of_ne_nil hg
  simp only [C2Conclusion] at hok ⊢
  refine ⟨⟨_, _, _, hok, ?_, ?_, ?_, ?_⟩,
    fun gs hp => bboxLoop_perm _ gs hp,
    fun pt => by simp [bboxLoop, bboxStep, List.foldl_cons, Point.bounds,
      FQ.min_pinf, FQ.max_ninf]⟩
  · refine ⟨(t.map Point.x).foldl Min.min g.x, ?_, ?_, ?_⟩
    · rw [List.map_cons]
      exact foldl_min_mem (t.map Point.x) g.x
    · rw [bboxLoop_spec]
    · intro q hq
      rw [List.map_cons] at hq
      rcases List.mem_cons.mp hq with h1 | h1
      · rw [h1]; exact (foldl_min_le (t.map Point.x) g.x).1
      · exact (foldl_min_le (t.map Point.x) g.x).2 q h1
  · refine ⟨(t.map Point.y).foldl Min.min g.y, ?_, ?_, ?_⟩
    · rw [List.map_cons]
      exact foldl_min_mem (t.map Point.y) g.y
    · rw [bboxLoop_spec]
    · intro q hq
      rw [List.map_cons] at hq
      rcases List.mem_cons.mp hq with h1 | h1
      · rw [h1]; exact (foldl_min_le (t.map Point.y) g.y).1
      · exact (foldl_min_le (t.map Point.y) g.y).2 q h1
  · refine ⟨(t.map Point.x).foldl Max.max g.x, ?_, ?_, ?_⟩
    · rw [List.map_cons]
      exact foldl_max_mem (t.map Point.x) g.x
    · rw [bboxLoop_spec]
    · intro q hq
      rw [List.map_cons] at hq
      rcases List.mem_cons.mp hq with h1 | h1
      · rw [h1]; exact (foldl_max_le (t.map Point.x) g.x).1
      · exact (foldl_max_le (t.map Point.x) g.x).2 q h1
  · refine ⟨(t.map Point.y).foldl Max.max g.y, ?_, ?_, ?_⟩
    · rw [List.map_cons]
      exact foldl_max_mem (t.map Point.y) g.y
    · rw [bboxLoop_spec]
    · intro q hq
      rw [List.map_cons] at hq
      rcases List.mem_cons.mp hq with h1 | h1
      · rw [h1]; exact (foldl_max_le (t.map Point.y) g.y).1
      · exact (foldl_max_le (t.map Point.y) g.y).2 q h1

/-- Witness for C2 at a concrete two-row file. -/
theorem C2_bbox_exact_coordinatewise_witness :
    witnessFile.WF ∧ witnessFile.geometry ≠ [] ∧ C2Conclusion ['w'] witnessFile :=
  ⟨by decide, by decide,
    C2_bbox_exact_coordinatewise ['w'] witnessFile (by decide) (by decide)⟩

/-! ### Claim C7 -/

/-- C7: for every well-formed file with at least one row, the summarizer's
`start` is the minimum of the first-timestamp column and its `end` the
maximum of the last-timestamp column (possibly from different rows), both
normalized to UTC: a naive timestamp is tagged as UTC without changing its
clock value, an offset-aware timestamp is converted to UTC. -/
theorem C7_start_end_min_max_utc (p : List Char) (f : ParquetFile)
    (hwf : f.WF) (hg : f.geometry ≠ []) : C7Conclusion p f := by
  obtain ⟨s, e, hs, he, hok⟩ := bbox_and_times_ok p f hwf hg
  obtain ⟨hsm, hsle⟩ := pyminList_spec _ _ hs
  obtain ⟨hem, hele⟩ := pymaxList_spec _ _ he
  refine ⟨⟨_, s, e, hok, hsm, hsle, hem, hele, DT.toUTC_tz s, DT.toUTC_tz e⟩, ?_, ?_⟩
  · intro d hd
    rcases d with ⟨c, t⟩
    cases hd
    rfl
  · intro d off hd
    rcases d with ⟨c, t⟩
    cases hd
    exact ⟨rfl, DT.toUTC_key _⟩

/-- Witness for C7 at a concrete two-row file. -/
theorem C7_start_end_min_max_utc_witness :
    witnessFile.WF ∧ witnessFile.geometry ≠ [] ∧ C7Conclusion ['w'] witnessFile :=
  ⟨by decide, by decide,
    C7_start_end_min_max_utc ['w'] witnessFile (by decide) (by decide)⟩

/-! ### Lemmas: RFC3339 suffix handling -/

theorem offsetChars_zero : offsetChars 0 = plus0000 := by decide

theorem isoformat_some_zero (c : Int) :
    DT.isoformat ⟨c, some 0⟩ = isoClock c ++ plus0000 := by
  rw [show DT.isoformat ⟨c, some 0⟩ = isoClock c ++ offsetChars 0 from rfl, offsetChars_zero]

theorem listEndsWith_append (body suf : List Char) :
    listEndsWith (body ++ suf) suf = true := by
  rw [listEndsWith]
  have h1 : (body ++ suf).length - suf.length = body.length := by
    rw [List.length_append]
    omega
  rw [h1]
  simp [List.drop_left]

theorem DT.toUTC_eq_clock_some_zero (d : DT) : d.toUTC = ⟨d.toUTC.clock, some 0⟩ := by
  rcases d with ⟨c, (_ | o)⟩ <;> rfl

/-- The formatter always yields the (abstracted) naive body of the
UTC-normalized instant followed by a literal `Z`. -/
theorem to_rfc3339_z_eq (d : DT) :
    to_rfc3339_z d = isoClock d.toUTC.clock ++ zSuffix := by
  rw [to_rfc3339_z]
  have hiso : d.toUTC.isoformat = isoClock d.toUTC.clock ++ plus0000 := by
    rw [DT.toUTC_eq_clock_some_zero d, isoformat_some_zero]
  rw [hiso, listEndsWith_append]
  simp only [if_true]
  have h1 : (isoClock d.toUTC.clock ++ plus0000).length - 6 = (isoClock d.toUTC.clock).length := by
    rw [List.length_append]
    rfl
  rw [h1, List.take_left]

theorem not_listEndsWith_plus0000_of_z (body : List Char) :
    listEndsWith (body ++ zSuffix) plus0000 = false := by
  rw [listEndsWith]
  by_cases hlen : plus0000.length ≤ (body ++ zSuffix).length
  · have h6 : (6 : Nat) ≤ body.length + 1 := by
      simpa [plus0000, zSuffix, List.length_append] using hlen
    apply Bool.and_eq_false_iff.mpr
    right
    apply decide_eq_false
    intro heq
    have hk : (body ++ zSuffix).length - plus0000.length = body.length - 5 := by
      have hz : (body ++ zSuffix).length = body.length + 1 := by
        rw [List.length_append]
        rfl
      rw [hz, show plus0000.length = 6 from rfl]
      omega
    rw [hk] at heq
    have hdrop : (body ++ zSuffix).drop (body.length - 5) =
        body.drop (body.length - 5) ++ zSuffix := by
      rw [List.drop_append_of_le_length]
      omega
    rw [hdrop] at heq
    have hlen5 : (body.drop (body.length - 5)).length = 5 := by
      rw [List.length_drop]
      omega
    rw [show plus0000 = ['+', '0', '0', ':', '0'] ++ ['0'] from rfl] at heq
    have : zSuffix = ['0'] := by
      refine List.append_inj_right heq ?_
      rw [hlen5]
      rfl
    simp [zSuffix] at this
  · apply Bool.and_eq_false_iff.mpr
    left
    exact decide_eq_false hlen

theorem aggBbox_append_one (l : List BBoxQ) (b : BBoxQ) :
    aggBbox (l ++ [b]) = some (match aggBbox l with
      | none => b
      | some o => mergeBBox o b) := by
  rw [aggBbox, aggBbox, List.foldl_append]
  rfl

theorem stepState_inv (st : BuildState) (p : List Char) (bb : BBoxQ) (s e : DT) (n : Nat)
    (h : StateInv st) : StateInv (stepState st p bb s e n) := by
  obtain ⟨h1, h2, h3, h4⟩ := h
  refine ⟨?_, ?_, ?_, ?_⟩
  · simp [stepState, h1, mkItem]
  · simp [stepState, h2, mkItem]
  · simp [stepState, h3, mkItem]
  · simp only [stepState, List.map_append, h4]
    rw [show List.map Item.bbox [mkItem p bb s e n] = [bb] from rfl, aggBbox_append_one]

theorem processFiles_ok_shape (l : List (List Char × ParquetFile)) :
    ∀ st st', processFiles l st = .ok st' →
      st'.items = st.items ++ l.filterMap itemOfPair ∧
      (∀ x ∈ l, ∃ r, bbox_and_times x.1 x.2 = .ok r) ∧
      (StateInv st → StateInv st') := by
  induction l with
  | nil =>
      intro st st' h
      simp only [processFiles, Except.ok.injEq] at h
      subst h
      simp [itemOfPair]
  | cons x rest ih =>
      intro st st' h
      obtain ⟨p, f⟩ := x
      simp only [processFiles] at h
      cases hbt : bbox_and_times p f with
      | error err => rw [hbt] at h; cases h
      | ok r =>
          rw [hbt] at h
          obtain ⟨bb, s, e, n⟩ := r
          obtain ⟨hitems, hall, hinv⟩ := ih _ _ h
          refine ⟨?_, ?_, ?_⟩
          · rw [hitems]
            simp [stepState, itemOfPair, hbt]
          · intro y hy
            rcases List.mem_cons.mp hy with h1 | h1
            · rw [h1]; exact ⟨_, hbt⟩
            · exact hall y h1
          · intro hst
            exact hinv (stepState_inv _ _ _ _ _ _ hst)

/-- Every item in the fold's output comes from one enumerated file whose
summary succeeded, via `mkItem`. -/
theorem mem_filterMap_itemOfPair (l : List (List Char × ParquetFile)) (it : Item)
    (h : it ∈ l.filterMap itemOfPair) :
    ∃ p f bb s e n, (p, f) ∈ l ∧ bbox_and_times p f = .ok (bb, s, e, n) ∧
      it = mkItem p bb s e n := by
  obtain ⟨⟨p, f⟩, hmem, hsome⟩ := List.mem_filterMap.mp h
  rw [itemOfPair] at hsome
  cases hbt : bbox_and_times p f with
  | error err => rw [hbt] at hsome; cases hsome
  | ok r =>
      obtain ⟨bb, s, e, n⟩ := r
      rw [hbt] at hsome
      simp only [Option.some.injEq] at hsome
      exact ⟨p, f, bb, s, e, n, hmem, hbt, hsome.symm⟩

/-- Unfolding of a successful summary: the returned start and end are
UTC-normalizations (so have offset zero) and the row count is the file's
metadata row count. -/
theorem bbox_and_times_ok_shape (p : List Char) (f : ParquetFile)
    (bb : BBoxQ) (s e : DT) (n : Nat)
    (h : bbox_and_times p f = .ok (bb, s, e, n)) :
    s.tz = some 0 ∧ e.tz = some 0 ∧ n = f.numRows ∧ f.geometry ≠ [] := by
  rw [bbox_and_times] at h
  by_cases hg : f.geometry.isEmpty
  · rw [if_pos hg] at h; cases h
  · rw [if_neg hg] at h
    cases hmin : pyminList f.firstMeasurementTime with
    | none => rw [hmin] at h; cases hmax : pymaxList f.lastMeasurementTime <;>
        rw [hmax] at h <;> cases h
    | some s0 =>
        cases hmax : pymaxList f.lastMeasurementTime with
        | none => rw [hmin, hmax] at h; cases h
        | some e0 =>
            rw [hmin, hmax] at h
            simp only [Except.ok.injEq, Prod.mk.injEq] at h
            obtain ⟨-, hs, he, hn⟩ := h
            refine ⟨?_, ?_, hn.symm, by simpa using hg⟩
            · rw [← hs]; exact DT.toUTC_tz s0
            · rw [← he]; exact DT.toUTC_tz e0

/-- Item identifiers produced by the fold are the stems of the enumerated
paths, in order, when every summary succeeds. -/
theorem filterMap_itemOfPair_ids (l : List (List Char × ParquetFile))
    (hall : ∀ x ∈ l, ∃ r, bbox_and_times x.1 x.2 = .ok r) :
    (l.filterMap itemOfPair).map Item.id = l.map (fun x => stem x.1) ∧
    (l.filterMap itemOfPair).map Item.href =
      l.map (fun x => ("assets/".toList) ++ x.1) := by
  induction l with
  | nil => simp
  | cons x rest ih =>
      obtain ⟨hids, hhrefs⟩ := ih (fun y hy => hall y (List.mem_cons_of_mem x hy))
      obtain ⟨r, hr⟩ := hall x (List.mem_cons_self x rest)
      obtain ⟨bb, s, e, n⟩ := r
      have hx : itemOfPair x = some (mkItem x.1 bb s e n) := by
        rw [itemOfPair, hr]
      simp [List.filterMap_cons, hx, hids, hhrefs, mkItem]

/-! ### Lemmas: path sorting -/

theorem pathLe_total (a b : List Char) : pathLe a b = true ∨ pathLe b a = true := by
  induction a generalizing b with
  | nil => left; rfl
  | cons x xs ih =>
      cases b with
      | nil => right; rfl
      | cons y ys =>
          rcases lt_trichotomy x y with h | h | h
          · left; simp [pathLe, h]
          · subst h
            rcases ih ys with h1 | h1
            · left; simp [pathLe, lt_irrefl, h1]
            · right; simp [pathLe, lt_irrefl, h1]
          · right; simp [pathLe, h]

theorem pathLe_trans (a b c : List Char) (h1 : pathLe a b = true)
    (h2 : pathLe b c = true) : pathLe a c = true := by
  induction a generalizing b c with
  | nil => rfl
  | cons x xs ih =>
      cases b with
      | nil => simp [pathLe] at h1
      | cons y ys =>
          cases c with
          | nil => simp [pathLe] at h2
          | cons z zs =>
              simp only [pathLe] at h1 h2 ⊢
              by_cases hxy : x < y
              · by_cases hyz : y < z
                · simp [lt_trans hxy hyz]
                · simp only [if_pos hxy, if_neg hyz] at h1 h2 ⊢
                  by_cases hyz2 : y = z
                  · subst hyz2; simp [hxy]
                  · simp [hyz2] at h2
              · simp only [if_neg hxy] at h1
                by_cases hxy2 : x = y
                · subst hxy2
                  simp only [if_pos rfl] at h1
                  by_cases hxz : x < z
                  · simp [hxz]
                  · simp only [if_neg hxz] at h2 ⊢
                    by_cases hxz2 : x = z
                    · subst hxz2
                      simp only [if_pos rfl] at h2 ⊢
                      exact ih ys zs h1 h2
                    · simp [hxz2] at h2
                · simp [hxy2] at h1

theorem insertByPath_perm (x : List Char × ParquetFile)
    (l : List (List Char × ParquetFile)) : (insertByPath x l).Perm (x :: l) := by
  induction l with
  | nil => exact List.Perm.refl _
  | cons y ys ih =>
      rw [insertByPath]
      by_cases h : pathLe x.1 y.1
      · rw [if_pos h]
      · rw [if_neg h]
        exact (List.Perm.cons y ih).trans (List.Perm.swap x y ys)

theorem sortByPath_perm (l : List (List Char × ParquetFile)) :
    (sortByPath l).Perm l := by
  induction l with
  | nil => exact List.Perm.refl _
  | cons x xs ih =>
      rw [sortByPath, List.foldr_cons]
      exact (insertByPath_perm x _).trans (List.Perm.cons x ih)

theorem mem_insertByPath (x y : List Char × ParquetFile)
    (l : List (List Char × ParquetFile)) (h : y ∈ insertByPath x l) :
    y = x ∨ y ∈ l :=
  List.mem_cons.mp ((insertByPath_perm x l).subset h)

theorem insertByPath_sorted (x : List Char × ParquetFile)
    (l : List (List Char × ParquetFile))
    (h : l.Pairwise (fun a b => pathLe a.1 b.1 = true)) :
    (insertByPath x l).Pairwise (fun a b => pathLe a.1 b.1 = true) := by
  induction l with
  | nil => simp [insertByPath]
  | cons y ys ih =>
      rw [insertByPath]
      by_cases hc : pathLe x.1 y.1
      · rw [if_pos hc]
        refine List.Pairwise.cons ?_ h
        intro z hz
        rcases List.mem_cons.mp hz with h1 | h1
        · rw [h1]; exact hc
        · exact pathLe_trans _ _ _ hc ((List.pairwise_cons.mp h).1 z h1)
      · rw [if_neg hc]
        obtain ⟨hy, hys⟩ := List.pairwise_cons.mp h
        refine List.Pairwise.cons ?_ (ih hys)
        intro z hz
        rcases mem_insertByPath x z ys hz with h1 | h1
        · rw [h1]
          rcases pathLe_total x.1 y.1 with h2 | h2
          · exact absurd h2 hc
          · exact h2
        · exact hy z h1

theorem sortByPath_sorted (l : List (List Char × ParquetFile)) :
    (sortByPath l).Pairwise (fun a b => pathLe a.1 b.1 = true) := by
  induction l with
  | nil => simp [sortByPath]
  | cons x xs ih =>
      rw [sortByPath, List.foldr_cons]
      exact insertByPath_sorted x _ ih

/-! ### Lemmas: unfolding a successful build -/

theorem build_catalog_ok (cid : List Char) (files : List (List Char × ParquetFile))
    (c : Collection) (h : build_catalog cid files = .ok c) :
    c.items = (sortByPath files).filterMap itemOfPair ∧
    (∀ x ∈ sortByPath files, ∃ r, bbox_and_times x.1 x.2 = .ok r) ∧
    c.id = cid ∧
    c.temporalStart = pyminList (c.items.map Item.datetime) ∧
    c.temporalEnd = pymaxList (c.items.map Item.endDatetime) ∧
    c.row_count = (c.items.map Item.row_count).sum ∧
    some c.spatial = aggBbox (c.items.map Item.bbox) := by
  rw [build_catalog] at h
  cases hp : processFiles (sortByPath files) initState with
  | error e => rw [hp] at h; cases h
  | ok st =>
      rw [hp] at h
      obtain ⟨hitems, hall, hinv⟩ := processFiles_ok_shape _ _ _ hp
      have hinv0 : StateInv initState := by
        refine ⟨rfl, rfl, rfl, rfl⟩
      obtain ⟨h1, h2, h3, h4⟩ := hinv hinv0
      have h' : (match st.overallBbox with
          | none => (Except.error CatalogError.noParquetFiles : Except CatalogError Collection)
          | some bb =>
            Except.ok
              ⟨cid, bb, pyminList st.startTimes, pymaxList st.endTimes,
                st.totalRows, st.items⟩) = Except.ok c := h
      clear h
      cases hob : st.overallBbox with
      | none => rw [hob] at h'; cases h'
      | some bb =>
          rw [hob] at h'
          simp only [Except.ok.injEq] at h'
          subst h'
          simp only [hitems, initState, List.nil_append] at h1 h2 h3 h4 ⊢
          rw [hob] at h4
          exact ⟨trivial, hall, trivial, by rw [h1], by rw [h2], by rw [h3], h4⟩

/-! ### Claims C4 and C5 -/

theorem bbox_and_times_empty (p : List Char) (f : ParquetFile)
    (hg : f.geometry = []) : bbox_and_times p f = .error (.emptyFile p) := by
  rw [bbox_and_times]
  simp [hg]

/-- If some enumerated file has an empty geometry column and the rest are
well formed, the loop aborts with the `emptyFile` error of some empty
file. -/
theorem processFiles_error_of_empty :
    ∀ (l : List (List Char × ParquetFile)) (st : BuildState),
      (∀ x ∈ l, (x.2 : ParquetFile).WF) →
      (∃ x ∈ l, (x.2 : ParquetFile).geometry = []) →
      ∃ q g, (q, g) ∈ l ∧ g.geometry = [] ∧
        processFiles l st = .error (.emptyFile q) := by
  intro l
  induction l with
  | nil =>
      intro st _ h
      obtain ⟨x, hx, -⟩ := h
      exact absurd hx (List.not_mem_nil x)
  | cons x rest ih =>
      intro st hwf hex
      obtain ⟨p, f⟩ := x
      by_cases hg : f.geometry = []
      · refine ⟨p, f, List.mem_cons_self _ _, hg, ?_⟩
        simp only [processFiles, bbox_and_times_empty p f hg]
      · have hwfh : f.WF := hwf (p, f) (List.mem_cons_self _ _)
        obtain ⟨s, e, hs, he, hok⟩ := bbox_and_times_ok p f hwfh hg
        have hex' : ∃ y ∈ rest, (y.2 : ParquetFile).geometry = [] := by
          rcases hex with ⟨y, hy, hyg⟩
          rcases List.mem_cons.mp hy with h1 | h1
          · exfalso
            rw [h1] at hyg
            exact hg hyg
          · exact ⟨y, h1, hyg⟩
        obtain ⟨q, g, hqm, hqg, hproc⟩ :=
          ih (stepState st p
              ⟨(bboxLoop f.geometry).1, (bboxLoop f.geometry).2.1,
               (bboxLoop f.geometry).2.2.1, (bboxLoop f.geometry).2.2.2⟩
              s.toUTC e.toUTC f.numRows)
            (fun y hy => hwf y (List.mem_cons_of_mem _ hy)) hex'
        refine ⟨q, g, List.mem_cons_of_mem _ hqm, hqg, ?_⟩
        simp only [processFiles, hok]
        exact hproc

/-- C4: for every well-formed enumeration containing a file whose geometry
column is empty, the summarizer fails on that file with the empty-file
error, the builder propagates an empty-file failure, and nothing is
persisted. -/
theorem C4_empty_file_aborts (cid : List Char)
    (files : List (List Char × ParquetFile)) (p : List Char) (f : ParquetFile)
    (hwf : ∀ x ∈ files, (x.2 : ParquetFile).WF)
    (hmem : (p, f) ∈ files) (hg : f.geometry = []) :
    bbox_and_times p f = .error (.emptyFile p) ∧
    ∃ q g, (q, g) ∈ files ∧ g.geometry = [] ∧
      build_catalog cid files = .error (.emptyFile q) ∧
      build_and_save cid files = .error (.emptyFile q) := by
  refine ⟨bbox_and_times_empty p f hg, ?_⟩
  have hmem' : (p, f) ∈ sortByPath files := ((sortByPath_perm files).mem_iff).mpr hmem
  have hwf' : ∀ x ∈ sortByPath files, (x.2 : ParquetFile).WF :=
    fun x hx => hwf x ((sortByPath_perm files).subset hx)
  obtain ⟨q, g, hqm, hqg, hproc⟩ :=
    processFiles_error_of_empty (sortByPath files) initState hwf' ⟨(p, f), hmem', hg⟩
  refine ⟨q, g, (sortByPath_perm files).subset hqm, hqg, ?_, ?_⟩
  · rw [build_catalog, hproc]
  · rw [build_and_save, build_catalog, hproc]
    rfl

/-- Witness for C4 at a one-file enumeration whose file has an empty
geometry column. -/
theorem C4_empty_file_aborts_witness :
    (∀ x ∈ [(['e'], emptyRowsFile)], (x.2 : ParquetFile).WF) ∧
    (['e'], emptyRowsFile) ∈ [(['e'], emptyRowsFile)] ∧
    emptyRowsFile.geometry = [] ∧
    (bbox_and_times ['e'] emptyRowsFile = .error (.emptyFile ['e']) ∧
      ∃ q g, (q, g) ∈ [(['e'], emptyRowsFile)] ∧ g.geometry = [] ∧
        build_catalog ['c'] [(['e'], emptyRowsFile)] = .error (.emptyFile q) ∧
        build_and_save ['c'] [(['e'], emptyRowsFile)] = .error (.emptyFile q)) :=
  ⟨by decide, by decide, rfl,
    C4_empty_file_aborts ['c'] [(['e'], emptyRowsFile)] ['e'] emptyRowsFile
      (by decide) (by decide) rfl⟩

/-- C5: when the recursive enumeration of the assets directory yields zero
tabular files, the builder fails with the empty-catalog error after the
loop, and no persistence happens (the save step is never reached). -/
theorem C5_empty_enumeration_fails (cid : List Char) :
    build_catalog cid [] = .error .noParquetFiles ∧
    build_and_save cid [] = .error .noParquetFiles :=
  ⟨rfl, rfl⟩

/-! ### Claim C6 -/

/-- C6: every RFC3339 serialization produced by the formatter ends with a
literal `Z` and never with `+00:00`; in particular the
`start_datetime`/`end_datetime` properties of every item of a successfully
built collection do. -/
theorem C6_rfc3339_trailing_z :
    (∀ d : DT, listEndsWith (to_rfc3339_z d) zSuffix = true ∧
      listEndsWith (to_rfc3339_z d) plus0000 = false) ∧
    (∀ (cid : List Char) (files : List (List Char × ParquetFile)) (c : Collection),
      build_catalog cid files = .ok c → ∀ it ∈ c.items,
        listEndsWith it.start_datetime zSuffix = true ∧
        listEndsWith it.start_datetime plus0000 = false ∧
        listEndsWith it.end_datetime zSuffix = true ∧
        listEndsWith it.end_datetime plus0000 = false) := by
  have hbase : ∀ d : DT, listEndsWith (to_rfc3339_z d) zSuffix = true ∧
      listEndsWith (to_rfc3339_z d) plus0000 = false := by
    intro d
    rw [to_rfc3339_z_eq]
    exact ⟨listEndsWith_append _ _, not_listEndsWith_plus0000_of_z _⟩
  refine ⟨hbase, ?_⟩
  intro cid files c hb it hit
  obtain ⟨hitems, -, -⟩ := build_catalog_ok cid files c hb
  rw [hitems] at hit
  obtain ⟨p, f, bb, s, e, n, -, -, heq⟩ := mem_filterMap_itemOfPair _ _ hit
  rw [heq]
  exact ⟨(hbase s).1, (hbase s).2, (hbase e).1, (hbase e).2⟩

/-- Witness for C6: the properties of the first item built from the
end-to-end example carry the `Z` suffix and not `+00:00`. -/
theorem C6_rfc3339_trailing_z_witness :
    listEndsWith (to_rfc3339_z ⟨7, none⟩) zSuffix = true ∧
    listEndsWith (to_rfc3339_z ⟨7, none⟩) plus0000 = false ∧
    listEndsWith (exampleCollection.items.getD 0 defaultItem).start_datetime zSuffix = true ∧
    listEndsWith (exampleCollection.items.getD 0 defaultItem).start_datetime plus0000 = false := by
  have hb : build_catalog ("sar".toList) exampleFiles = .ok exampleCollection := by
    decide
  have hmem : exampleCollection.items.getD 0 defaultItem ∈ exampleCollection.items := by
    decide
  have h2 := C6_rfc3339_trailing_z.2 ("sar".toList) exampleFiles exampleCollection hb
    (exampleCollection.items.getD 0 defaultItem) hmem
  exact ⟨(C6_rfc3339_trailing_z.1 ⟨7, none⟩).1, (C6_rfc3339_trailing_z.1 ⟨7, none⟩).2,
    h2.1, h2.2.1⟩

/-! ### Claim C1 -/

theorem aggBbox_cons (b : BBoxQ) (bs : List BBoxQ) :
    aggBbox (b :: bs) = some (bs.foldl mergeBBox b) := by
  rw [aggBbox, List.foldl_cons]
  generalize b = b0
  induction bs generalizing b0 with
  | nil => rfl
  | cons x xs ih => simpa [List.foldl_cons] using ih (mergeBBox b0 x)

theorem foldl_mergeBBox_eq (bs : List BBoxQ) (b : BBoxQ) :
    bs.foldl mergeBBox b =
      ⟨(bs.map BBoxQ.minx).foldl FQ.min b.minx,
       (bs.map BBoxQ.miny).foldl FQ.min b.miny,
       (bs.map BBoxQ.maxx).foldl FQ.max b.maxx,
       (bs.map BBoxQ.maxy).foldl FQ.max b.maxy⟩ := by
  induction bs generalizing b with
  | nil => rfl
  | cons x xs ih => simp [List.foldl_cons, ih, mergeBBox]

/-- C1: for every successful build (hence a non-empty enumerated file
list), the collection's spatial extent is the coordinate-wise min/max bbox
over all item bboxes, its temporal extent is `[min item start, max item
end]`, and its table-extension row count is the sum of the item row
counts; in particular the two-file example of the spec yields bbox
`[-10,40,-8,42]`, temporal `[2021-01-01T00:00Z, 2021-01-02T01:00Z]`, row
count 8, and two items linked. -/
theorem C1_collection_extent_aggregation (cid : List Char)
    (files : List (List Char × ParquetFile)) (c : Collection)
    (h : build_catalog cid files = .ok c) :
    C1Conclusion c ∧ C1ExampleFact := by
  obtain ⟨hitems, hall, -, hts, hte, hrc, hsp⟩ := build_catalog_ok cid files c h
  have hne : c.items ≠ [] := by
    intro hnil
    rw [hnil] at hsp
    cases hsp
  have hnorm : ∀ it ∈ c.items, it.datetime.tz = some 0 ∧ it.endDatetime.tz = some 0 := by
    intro it hit
    rw [hitems] at hit
    obtain ⟨p, f, bb, s, e, n, -, hok, heq⟩ := mem_filterMap_itemOfPair _ _ hit
    obtain ⟨hs, he, -, -⟩ := bbox_and_times_ok_shape p f bb s e n hok
    rw [heq]
    exact ⟨hs, he⟩
  refine ⟨⟨hrc, ?_, ?_, ?_, hne⟩, by unfold C1ExampleFact; decide⟩
  · intro i0 rest hcons
    rw [hcons] at hsp
    rw [List.map_cons, aggBbox_cons, foldl_mergeBBox_eq] at hsp
    exact Option.some.inj hsp
  · have hmapne : c.items.map Item.datetime ≠ [] := by
      intro hm
      exact hne (List.map_eq_nil_iff.mp hm)
    obtain ⟨s, hs⟩ := pyminList_isSome _ hmapne
    obtain ⟨hsm, hsle⟩ := pyminList_spec _ _ hs
    obtain ⟨it0, hit0, hit0e⟩ := List.mem_map.mp hsm
    refine ⟨s, by rw [hts, hs], ⟨it0, hit0, hit0e.symm⟩, ?_⟩
    intro it hit
    exact hsle it.datetime (List.mem_map_of_mem Item.datetime hit)
  · have hmapne : c.items.map Item.endDatetime ≠ [] := by
      intro hm
      exact hne (List.map_eq_nil_iff.mp hm)
    obtain ⟨e, he⟩ := pymaxList_isSome _ hmapne
    obtain ⟨hem, hele⟩ := pymaxList_spec _ _ he
    obtain ⟨it0, hit0, hit0e⟩ := List.mem_map.mp hem
    refine ⟨e, by rw [hte, he], ⟨it0, hit0, hit0e.symm⟩, ?_⟩
    intro it hit
    exact hele it.endDatetime (List.mem_map_of_mem Item.endDatetime hit)

/-- Witness for C1 at the end-to-end example input. -/
theorem C1_collection_extent_aggregation_witness :
    build_catalog ("sar".toList) exampleFiles = .ok exampleCollection ∧
    C1Conclusion exampleCollection ∧ C1ExampleFact :=
  ⟨by decide,
    C1_collection_extent_aggregation ("sar".toList) exampleFiles exampleCollection
      (by decide)⟩

/-! ### Claim C8 -/

/-- Counterexample to C8 as stated: two distinct enumerated files (same
name in different subdirectories) produce two items with the same
identifier `same`, because the identifier is the file's stem. -/
theorem C8_counterexample_same_stem :
    ("dir1/same.parquet".toList ≠ "dir2/same.parquet".toList) ∧
    (build_catalog ['s'] sameStemFiles).map (fun c => c.items.map Item.id) =
      .ok ["same".toList, "same".toList] := by
  refine ⟨by decide, by decide⟩

/-- C8 (amended): item identifiers are the stems of the enumerated file
paths, so whenever the stems of the enumerated files are pairwise
distinct (for example, a flat assets directory, where names are unique),
the identifiers of the items built from distinct files are pairwise
distinct. Files in different subdirectories that share a stem violate the
original claim, as the counterexample shows. -/
theorem C8_ids_distinct_of_stems_distinct (cid : List Char)
    (files : List (List Char × ParquetFile)) (c : Collection)
    (hst : (files.map (fun x => stem x.1)).Pairwise (fun a b => a ≠ b))
    (h : build_catalog cid files = .ok c) :
    (c.items.map Item.id).Pairwise (fun a b => a ≠ b) := by
  obtain ⟨hitems, hall, -⟩ := build_catalog_ok cid files c h
  obtain ⟨hids, -⟩ := filterMap_itemOfPair_ids (sortByPath files) hall
  rw [hitems, hids]
  have hperm : ((sortByPath files).map (fun x => stem x.1)).Perm
      (files.map (fun x => stem x.1)) := (sortByPath_perm files).map _
  exact (hperm.pairwise_iff (fun h => Ne.symm h)).mpr hst

/-- Witness for C8 (amended) at the end-to-end example, whose two stems
`a` and `b` are distinct. -/
theorem C8_ids_distinct_witness :
    (exampleFiles.map (fun x => stem x.1)).Pairwise (fun a b => a ≠ b) ∧
    build_catalog ("sar".toList) exampleFiles = .ok exampleCollection ∧
    (exampleCollection.items.map Item.id).Pairwise (fun a b => a ≠ b) :=
  ⟨by decide, by decide,
    C8_ids_distinct_of_stems_distinct ("sar".toList) exampleFiles exampleCollection
      (by decide) (by decide)⟩

/-! ### Claim C9 -/

theorem mergeBBox_comm (a b : BBoxQ) : mergeBBox a b = mergeBBox b a := by
  rw [mergeBBox, mergeBBox,
    FQ.min_comm a.minx, FQ.min_comm a.miny, FQ.max_comm a.maxx, FQ.max_comm a.maxy]

theorem mergeBBox_assoc (a b c : BBoxQ) :
    mergeBBox (mergeBBox a b) c = mergeBBox a (mergeBBox b c) := by
  rw [mergeBBox, mergeBBox, mergeBBox, mergeBBox]
  simp only [FQ.min_assoc, FQ.max_assoc]

/-- The running-bbox accumulation is invariant under reordering of the
item bboxes. -/
theorem aggBbox_perm (l₁ l₂ : List BBoxQ) (h : l₁.Perm l₂) :
    aggBbox l₁ = aggBbox l₂ := by
  rw [aggBbox, aggBbox]
  refine foldl_perm_of_rightComm _ ?_ h none
  intro acc x y
  cases acc with
  | none =>
      simp only
      rw [mergeBBox_comm]
  | some o =>
      simp only
      rw [mergeBBox_assoc, mergeBBox_assoc, mergeBBox_comm x y]

/-- Python's `min` over a list of UTC-normalized datetimes depends only on
the multiset of elements. -/
theorem pyminList_perm_normalized (l₁ l₂ : List DT) (hp : l₁.Perm l₂)
    (hn : ∀ d ∈ l₁, d.tz = some 0) : pyminList l₁ = pyminList l₂ := by
  cases hl : l₁ with
  | nil =>
      rw [hl] at hp
      rw [hp.symm.eq_nil]
  | cons a t =>
      rw [← hl]
      have h1 : l₁ ≠ [] := by rw [hl]; exact List.cons_ne_nil a t
      have h2 : l₂ ≠ [] := by
        intro h
        rw [h] at hp
        exact h1 hp.eq_nil
      obtain ⟨d₁, hd₁⟩ := pyminList_isSome l₁ h1
      obtain ⟨d₂, hd₂⟩ := pyminList_isSome l₂ h2
      obtain ⟨hm₁, hle₁⟩ := pyminList_spec _ _ hd₁
      obtain ⟨hm₂, hle₂⟩ := pyminList_spec _ _ hd₂
      have hm₂' : d₂ ∈ l₁ := hp.symm.subset hm₂
      have hkey : d₁.key = d₂.key :=
        le_antisymm (hle₁ d₂ hm₂') (hle₂ d₁ (hp.subset hm₁))
      rw [hd₁, hd₂, DT.eq_of_key_eq d₁ d₂ (hn d₁ hm₁) (hn d₂ hm₂') hkey]

/-- Python's `max` over a list of UTC-normalized datetimes depends only on
the multiset of elements. -/
theorem pymaxList_perm_normalized (l₁ l₂ : List DT) (hp : l₁.Perm l₂)
    (hn : ∀ d ∈ l₁, d.tz = some 0) : pymaxList l₁ = pymaxList l₂ := by
  cases hl : l₁ with
  | nil =>
      rw [hl] at hp
      rw [hp.symm.eq_nil]
  | cons a t =>
      rw [← hl]
      have h1 : l₁ ≠ [] := by rw [hl]; exact List.cons_ne_nil a t
      have h2 : l₂ ≠ [] := by
        intro h
        rw [h] at hp
        exact h1 hp.eq_nil
      obtain ⟨d₁, hd₁⟩ := pymaxList_isSome l₁ h1
      obtain ⟨d₂, hd₂⟩ := pymaxList_isSome l₂ h2
      obtain ⟨hm₁, hle₁⟩ := pymaxList_spec _ _ hd₁
      obtain ⟨hm₂, hle₂⟩ := pymaxList_spec _ _ hd₂
      have hm₂' : d₂ ∈ l₁ := hp.symm.subset hm₂
      have hkey : d₁.key = d₂.key :=
        le_antisymm (hle₂ d₁ (hp.subset hm₁)) (hle₁ d₂ hm₂')
      rw [hd₁, hd₂, DT.eq_of_key_eq d₁ d₂ (hn d₁ hm₁) (hn d₂ hm₂') hkey]

/-- The items of a successful build have UTC-normalized start and end
datetimes (the summarizer normalizes before returning). -/
theorem build_items_normalized (cid : List Char)
    (files : List (List Char × ParquetFile)) (c : Collection)
    (h : build_catalog cid files = .ok c) :
    ∀ it ∈ c.items, it.datetime.tz = some 0 ∧ it.endDatetime.tz = some 0 := by
  obtain ⟨hitems, -, -⟩ := build_catalog_ok cid files c h
  intro it hit
  rw [hitems] at hit
  obtain ⟨p, f, bb, s, e, n, -, hok, heq⟩ := mem_filterMap_itemOfPair _ _ hit
  obtain ⟨hs, he, -, -⟩ := bbox_and_times_ok_shape p f bb s e n hok
  rw [heq]
  exact ⟨hs, he⟩

/-- C9: the builder enumerates the files in path-sorted order (the built
items follow the sorted path order, and the sort is a sorted permutation
of the enumeration); the bbox merge is commutative and associative; and
the collection's aggregate extent and row count depend only on the
multiset of enumerated files, so any enumeration order (in particular a
second run over an unchanged tree) yields identical aggregate values. -/
theorem C9_sorted_deterministic_order_independent :
    (∀ (cid : List Char) (files : List (List Char × ParquetFile)) (c : Collection),
      build_catalog cid files = .ok c →
        c.items.map Item.href =
          (sortByPath files).map (fun x => ("assets/".toList) ++ x.1) ∧
        (sortByPath files).Pairwise (fun a b => pathLe a.1 b.1 = true) ∧
        (sortByPath files).Perm files) ∧
    (∀ a b : BBoxQ, mergeBBox a b = mergeBBox b a) ∧
    (∀ a b c : BBoxQ, mergeBBox (mergeBBox a b) c = mergeBBox a (mergeBBox b c)) ∧
    (∀ (cid : List Char) (files₁ files₂ : List (List Char × ParquetFile))
      (c₁ c₂ : Collection), files₁.Perm files₂ →
      build_catalog cid files₁ = .ok c₁ → build_catalog cid files₂ = .ok c₂ →
        c₁.spatial = c₂.spatial ∧ c₁.temporalStart = c₂.temporalStart ∧
        c₁.temporalEnd = c₂.temporalEnd ∧ c₁.row_count = c₂.row_count) := by
  refine ⟨?_, mergeBBox_comm, mergeBBox_assoc, ?_⟩
  · intro cid files c h
    obtain ⟨hitems, hall, -⟩ := build_catalog_ok cid files c h
    obtain ⟨-, hhrefs⟩ := filterMap_itemOfPair_ids (sortByPath files) hall
    exact ⟨by rw [hitems, hhrefs], sortByPath_sorted files, sortByPath_perm files⟩
  · intro cid files₁ files₂ c₁ c₂ hp h₁ h₂
    obtain ⟨hitems₁, hall₁, -, hts₁, hte₁, hrc₁, hsp₁⟩ := build_catalog_ok cid files₁ c₁ h₁
    obtain ⟨hitems₂, hall₂, -, hts₂, hte₂, hrc₂, hsp₂⟩ := build_catalog_ok cid files₂ c₂ h₂
    have hip : (c₁.items).Perm c₂.items := by
      rw [hitems₁, hitems₂]
      exact ((sortByPath_perm files₁).trans (hp.trans (sortByPath_perm files₂).symm)).filterMap
        itemOfPair
    have hnorm₁ := build_items_normalized cid files₁ c₁ h₁
    refine ⟨?_, ?_, ?_, ?_⟩
    · have : aggBbox (c₁.items.map Item.bbox) = aggBbox (c₂.items.map Item.bbox) :=
        aggBbox_perm _ _ (hip.map Item.bbox)
      rw [this] at hsp₁
      exact Option.some.inj (hsp₁.trans hsp₂.symm)
    · rw [hts₁, hts₂]
      refine pyminList_perm_normalized _ _ (hip.map Item.datetime) ?_
      intro d hd
      obtain ⟨it, hit, hite⟩ := List.mem_map.mp hd
      rw [← hite]
      exact (hnorm₁ it hit).1
    · rw [hte₁, hte₂]
      refine pymaxList_perm_normalized _ _ (hip.map Item.endDatetime) ?_
      intro d hd
      obtain ⟨it, hit, hite⟩ := List.mem_map.mp hd
      rw [← hite]
      exact (hnorm₁ it hit).2
    · rw [hrc₁, hrc₂]
      exact (hip.map Item.row_count).sum_eq

/-- Witness for C9: the example enumeration and its reverse yield the
same extent and row count. -/
theorem C9_sorted_deterministic_witness :
    exampleFiles.Perm exampleFiles.reverse ∧
    build_catalog ("sar".toList) exampleFiles = .ok exampleCollection ∧
    build_catalog ("sar".toList) exampleFiles.reverse = .ok exampleCollectionRev ∧
    (exampleCollection.spatial = exampleCollectionRev.spatial ∧
      exampleCollection.temporalStart = exampleCollectionRev.temporalStart ∧
      exampleCollection.temporalEnd = exampleCollectionRev.temporalEnd ∧
      exampleCollection.row_count = exampleCollectionRev.row_count) :=
  ⟨(List.reverse_perm exampleFiles).symm, by decide, by decide,
    C9_sorted_deterministic_order_independent.2.2.2 ("sar".toList) exampleFiles
      exampleFiles.reverse exampleCollection exampleCollectionRev
      (List.reverse_perm exampleFiles).symm (by decide) (by decide)⟩

/-! ### Claim C3 -/

/-- The attempt loop never makes more calls than it has iterations left. -/
theorem retryGo_attempts_le (behavior : Nat → WriteOutcome) (retries backoff : Nat) :
    ∀ fuel a, (retryGo behavior retries backoff fuel a).attempts ≤ fuel := by
  intro fuel
  induction fuel with
  | zero => intro a; exact Nat.le_refl 0
  | succ f ih =>
      intro a
      cases hba : behavior a with
      | success =>
          simp only [retryGo, hba]
          exact Nat.succ_le_succ (Nat.zero_le f)
      | failure e =>
          cases e with
          | osError msg =>
              simp only [retryGo, hba]
              by_cases hc : SLOW_DOWN_MARKER <:+: msg ∧ a < retries
              · rw [if_pos hc]
                exact Nat.succ_le_succ (ih (a + 1))
              · rw [if_neg hc]
                exact Nat.succ_le_succ (Nat.zero_le f)
          | otherError msg =>
              simp only [retryGo, hba]
              exact Nat.succ_le_succ (Nat.zero_le f)

/-- When every attempt up to the budget fails with a marker-bearing
`OSError`, the loop makes exactly the remaining attempts and re-raises the
last error unchanged. -/
theorem retryGo_exhaust (behavior : Nat → WriteOutcome) (retries backoff : Nat)
    (m : Nat → List Char)
    (hbm : ∀ k, 1 ≤ k → k ≤ retries →
      behavior k = .failure (.osError (m k)) ∧ SLOW_DOWN_MARKER <:+: m k) :
    ∀ fuel a, 1 ≤ fuel → 1 ≤ a → a + fuel = retries + 1 →
      (retryGo behavior retries backoff fuel a).result = .error (.osError (m retries)) ∧
      (retryGo behavior retries backoff fuel a).attempts = fuel := by
  intro fuel
  induction fuel with
  | zero =>
      intro a hf _ _
      omega
  | succ f ih =>
      intro a hf ha hsum
      have hk : a ≤ retries := by omega
      obtain ⟨hba, hma⟩ := hbm a ha hk
      by_cases hlast : a < retries
      · have hf1 : 1 ≤ f := by omega
        obtain ⟨hr, hat⟩ := ih (a + 1) hf1 (by omega) (by omega)
        simp only [retryGo, hba]
        rw [if_pos ⟨hma, hlast⟩]
        exact ⟨hr, by rw [hat]⟩
      · have haeq : a = retries := by omega
        simp only [retryGo, hba]
        rw [if_neg (fun hc => hlast hc.2)]
        refine ⟨by rw [haeq], ?_⟩
        show 1 = f + 1
        omega

/-- C3: the resilient write makes up to `retries` attempts, sleeps
`backoff * 2^(n-1)` after the `n`-th throttling-marked failure, so the
fail-fail-succeed scenario sleeps `backoff*1 + backoff*2` in total and
returns normally; a non-throttling failure raises immediately without
sleeping; and exhausting the budget propagates the last error
unchanged. -/
theorem C3_retry_backoff_policy : C3Conclusion := by
  refine ⟨?_, ?_, ?_, ?_⟩
  · intro behavior retries backoff
    exact retryGo_attempts_le behavior retries backoff retries 1
  · intro behavior backoff m1 m2 hm1 hm2 hb1 hb2 hb3
    have hrun : write_dataset_with_retry behavior 5 backoff =
        ⟨[backoff * 1, backoff * 2], 3, .ok ()⟩ := by
      rw [write_dataset_with_retry]
      simp only [retryGo, hb1, hb2, hb3]
      rw [if_pos ⟨hm1, by omega⟩, if_pos ⟨hm2, by omega⟩]
      simp [pow_succ]
    refine ⟨hrun, ?_⟩
    rw [hrun]
    simp [List.sum_cons]
  · intro behavior retries backoff msg hr hmsg hb1
    obtain ⟨f, rfl⟩ : ∃ f, retries = f + 1 := ⟨retries - 1, by omega⟩
    rw [write_dataset_with_retry]
    simp only [retryGo, hb1]
    rw [if_neg (fun hc => hmsg hc.1)]
  · intro behavior retries backoff m hr hbm
    exact retryGo_exhaust behavior retries backoff m hbm retries 1 hr (by omega) (by omega)

/-- Witness for C3: the three scenarios at concrete behaviors with the
default budget and backoff. -/
theorem C3_retry_backoff_policy_witness :
    (write_dataset_with_retry twoThrottleBehavior 5 5 = ⟨[5 * 1, 5 * 2], 3, .ok ()⟩) ∧
    (write_dataset_with_retry plainFailBehavior 5 5 = ⟨[], 1, .error (.osError ['x'])⟩) ∧
    ((write_dataset_with_retry alwaysThrottleBehavior 5 5).result =
        .error (.osError SLOW_DOWN_MARKER) ∧
      (write_dataset_with_retry alwaysThrottleBehavior 5 5).attempts = 5) :=
  ⟨(C3_retry_backoff_policy.2.1 twoThrottleBehavior 5 SLOW_DOWN_MARKER SLOW_DOWN_MARKER
      (by decide) (by decide) (by decide) (by decide) (by decide)).1,
    C3_retry_backoff_policy.2.2.1 plainFailBehavior 5 5 ['x'] (by decide) (by decide)
      (by decide),
    C3_retry_backoff_policy.2.2.2 alwaysThrottleBehavior 5 5
      (fun _ => SLOW_DOWN_MARKER) (by decide)
      (fun k h1 h2 => ⟨rfl, List.infix_refl _⟩)⟩

/-! ### Claim C10 -/

theorem not_throttled_success : ¬ throttled .success := by
  rintro ⟨msg, h, -⟩
  cases h

theorem not_throttled_other (msg : List Char) :
    ¬ throttled (.failure (.otherError msg)) := by
  rintro ⟨m, h, -⟩
  cases h

theorem throttled_os (msg : List Char) :
    throttled (.failure (.osError msg)) ↔ SLOW_DOWN_MARKER <:+: msg := by
  constructor
  · rintro ⟨m, hm, hi⟩
    have hme : msg = m := by
      injection hm with h1
      injection h1 with h2
    rw [hme]
    exact hi
  · intro h
    exact ⟨msg, rfl, h⟩

theorem retryGo_step_success (behavior : Nat → WriteOutcome) (retries backoff f a : Nat)
    (hba : behavior a = .success) :
    retryGo behavior retries backoff (f + 1) a = ⟨[], 1, .ok ()⟩ := by
  simp only [retryGo, hba]

theorem retryGo_step_retry (behavior : Nat → WriteOutcome) (retries backoff f a : Nat)
    (msg : List Char) (hba : behavior a = .failure (.osError msg))
    (hc : SLOW_DOWN_MARKER <:+: msg ∧ a < retries) :
    retryGo behavior retries backoff (f + 1) a =
      ⟨backoff * 2 ^ (a - 1) :: (retryGo behavior retries backoff f (a + 1)).sleeps,
       (retryGo behavior retries backoff f (a + 1)).attempts + 1,
       (retryGo behavior retries backoff f (a + 1)).result⟩ := by
  simp only [retryGo, hba]
  rw [if_pos hc]

theorem retryGo_step_raise (behavior : Nat → WriteOutcome) (retries backoff f a : Nat)
    (msg : List Char) (hba : behavior a = .failure (.osError msg))
    (hc : ¬(SLOW_DOWN_MARKER <:+: msg ∧ a < retries)) :
    retryGo behavior retries backoff (f + 1) a = ⟨[], 1, .error (.osError msg)⟩ := by
  simp only [retryGo, hba]
  rw [if_neg hc]

theorem retryGo_step_other (behavior : Nat → WriteOutcome) (retries backoff f a : Nat)
    (msg : List Char) (hba : behavior a = .failure (.otherError msg)) :
    retryGo behavior retries backoff (f + 1) a = ⟨[], 1, .error (.otherError msg)⟩ := by
  simp only [retryGo, hba]

/-- Characterization of how far the attempt loop gets: starting at attempt
`a` with `fuel` iterations left, more than `j` calls are made exactly when
`j` more iterations exist and each of the first `j` outcomes is a
marker-bearing `OSError` raised while attempts remain. -/
theorem retryGo_attempts_iff (behavior : Nat → WriteOutcome) (retries backoff : Nat) :
    ∀ fuel a j, (j < (retryGo behavior retries backoff fuel a).attempts ↔
      (j < fuel ∧ ∀ k, k < j → throttled (behavior (a + k)) ∧ a + k < retries)) := by
  intro fuel
  induction fuel with
  | zero =>
      intro a j
      constructor
      · intro hj
        rw [show (retryGo behavior retries backoff 0 a).attempts = 0 from rfl] at hj
        omega
      · rintro ⟨hj, -⟩
        omega
  | succ f ih =>
      intro a j
      cases hba : behavior a with
      | success =>
          have hat : (retryGo behavior retries backoff (f + 1) a).attempts = 1 := by
            rw [retryGo_step_success behavior retries backoff f a hba]
          rw [hat]
          constructor
          · intro hj
            have hj0 : j = 0 := by omega
            subst hj0
            exact ⟨by omega, fun k hk => absurd hk (by omega)⟩
          · rintro ⟨hjf, hall⟩
            by_cases hj : j = 0
            · omega
            · exfalso
              have h0 := (hall 0 (by omega)).1
              rw [Nat.add_zero, hba] at h0
              exact not_throttled_success h0
      | failure e =>
          cases e with
          | osError msg =>
              by_cases hc : SLOW_DOWN_MARKER <:+: msg ∧ a < retries
              · have hat : (retryGo behavior retries backoff (f + 1) a).attempts =
                    (retryGo behavior retries backoff f (a + 1)).attempts + 1 := by
                  rw [retryGo_step_retry behavior retries backoff f a msg hba hc]
                rw [hat]
                cases j with
                | zero =>
                    constructor
                    · intro _
                      exact ⟨by omega, fun k hk => absurd hk (by omega)⟩
                    · intro _
                      omega
                | succ j' =>
                    have hih := ih (a + 1) j'
                    constructor
                    · intro hj
                      have hj' : j' < (retryGo behavior retries backoff f (a + 1)).attempts := by
                        omega
                      obtain ⟨hjf, hall⟩ := hih.mp hj'
                      refine ⟨by omega, ?_⟩
                      intro k hk
                      cases k with
                      | zero =>
                          rw [Nat.add_zero, hba]
                          exact ⟨(throttled_os msg).mpr hc.1, hc.2⟩
                      | succ k' =>
                          have hthis := hall k' (by omega)
                          rw [show a + (k' + 1) = a + 1 + k' by omega]
                          exact hthis
                    · rintro ⟨hjf, hall⟩
                      have hj' : j' < (retryGo behavior retries backoff f (a + 1)).attempts := by
                        refine hih.mpr ⟨by omega, ?_⟩
                        intro k hk
                        have hthis := hall (k + 1) (by omega)
                        rw [show a + 1 + k = a + (k + 1) by omega]
                        exact hthis
                      omega
              · have hat : (retryGo behavior retries backoff (f + 1) a).attempts = 1 := by
                  rw [retryGo_step_raise behavior retries backoff f a msg hba hc]
                rw [hat]
                constructor
                · intro hj
                  have hj0 : j = 0 := by omega
                  subst hj0
                  exact ⟨by omega, fun k hk => absurd hk (by omega)⟩
                · rintro ⟨hjf, hall⟩
                  by_cases hj : j = 0
                  · omega
                  · exfalso
                    have h0 := hall 0 (by omega)
                    rw [Nat.add_zero, hba] at h0
                    exact hc ⟨(throttled_os msg).mp h0.1, h0.2⟩
          | otherError msg =>
              have hat : (retryGo behavior retries backoff (f + 1) a).attempts = 1 := by
                rw [retryGo_step_other behavior retries backoff f a msg hba]
              rw [hat]
              constructor
              · intro hj
                have hj0 : j = 0 := by omega
                subst hj0
                exact ⟨by omega, fun k hk => absurd hk (by omega)⟩
              · rintro ⟨hjf, hall⟩
                by_cases hj : j = 0
                · omega
                · exfalso
                  have h0 := (hall 0 (by omega)).1
                  rw [Nat.add_zero, hba] at h0
                  exact not_throttled_other msg h0

/-- C10: the resilient write makes an `(n+1)`-st attempt if and only if
attempts remain (`n < retries`) and each of the first `n` attempts raised
an `OSError` whose message contains the throttling marker; an exception
that is not an `OSError` propagates immediately with no retry and no
sleep, even when its message contains the marker. -/
theorem C10_retry_iff_marked_oserror :
    (∀ (behavior : Nat → WriteOutcome) (retries backoff n : Nat), 1 ≤ n →
      (n < (write_dataset_with_retry behavior retries backoff).attempts ↔
        (n < retries ∧ ∀ k, 1 ≤ k → k ≤ n → throttled (behavior k)))) ∧
    (∀ (behavior : Nat → WriteOutcome) (retries backoff : Nat) (msg : List Char),
      1 ≤ retries → behavior 1 = .failure (.otherError msg) →
        write_dataset_with_retry behavior retries backoff =
          ⟨[], 1, .error (.otherError msg)⟩) := by
  constructor
  · intro behavior retries backoff n hn
    rw [write_dataset_with_retry]
    refine (retryGo_attempts_iff behavior retries backoff retries 1 n).trans ?_
    constructor
    · rintro ⟨h1, h2⟩
      refine ⟨h1, ?_⟩
      intro k hk1 hkn
      have hthis := (h2 (k - 1) (by omega)).1
      rw [show 1 + (k - 1) = k by omega] at hthis
      exact hthis
    · rintro ⟨h1, h2⟩
      refine ⟨h1, ?_⟩
      intro k hk
      refine ⟨?_, by omega⟩
      exact h2 (1 + k) (by omega) (by omega)
  · intro behavior retries backoff msg hr hb1
    obtain ⟨f, rfl⟩ : ∃ f, retries = f + 1 := ⟨retries - 1, by omega⟩
    rw [write_dataset_with_retry]
    exact retryGo_step_other behavior (f + 1) backoff f 1 msg hb1

/-- Witness for C10: the throttling behavior is retried past attempt 1,
while a non-`OSError` failure with a marker-bearing message propagates
immediately with no sleep. -/
theorem C10_retry_iff_marked_oserror_witness :
    (1 < (write_dataset_with_retry twoThrottleBehavior 5 5).attempts) ∧
    write_dataset_with_retry otherFailBehavior 5 5 =
      ⟨[], 1, .error (.otherError SLOW_DOWN_MARKER)⟩ :=
  ⟨(C10_retry_iff_marked_oserror.1 twoThrottleBehavior 5 5 1 (by omega)).mpr
      ⟨by omega, fun k h1 h2 =>
        ⟨SLOW_DOWN_MARKER, by
          have hk : k = 1 := by omega
          subst hk
          rfl, List.infix_refl _⟩⟩,
    C10_retry_iff_marked_oserror.2 otherFailBehavior 5 5 SLOW_DOWN_MARKER (by omega) rfl⟩

end SarCatalog
